import Mathlib

/-!
Shallow embedding of the text-cleaning core of the pdf-extractor-api repository
(`src/text_cleaner.py` and `src/extractor.py`), together with proofs settling the
frozen specification claims.

Strings are modelled as `List Char`; Python `re` patterns are modelled by
deterministic scanners equivalent to the (backtracking-free) regexes used by the
source; float ratio comparisons such as `count / length > 0.6` are modelled as
the exact integer cross-multiplications (`ratioGt`/`ratioLt`), which agree with
the IEEE-double comparisons at and around every threshold the code uses.  The
two multiline page-break substitutions, whose patterns are anchored with
`(?m)^...$`, are modelled as whole-line matches applied line by line.
-/

namespace TextCleaner

/-- Strings are modelled as lists of characters. -/
abbrev Str := List Char

/-- ASCII whitespace, as stripped by Python `str.strip` and matched by `\s`. -/
def isWS (c : Char) : Bool :=
  c == ' ' || c == '\t' || c == '\n' || c == '\r' || c == '\x0b' || c == '\x0c'

/-- Python `str.strip`: remove leading and trailing whitespace. -/
def strip (s : Str) : Str :=
  ((s.dropWhile isWS).reverse.dropWhile isWS).reverse

/-- Python `str.split('\n')`. -/
def splitNl : Str → List Str
  | [] => [[]]
  | c :: rest =>
    if c == '\n' then [] :: splitNl rest
    else
      match splitNl rest with
      | [] => [[c]]
      | h :: t => (c :: h) :: t

/-- Python `'\n'.join`. -/
def joinNl : List Str → Str
  | [] => []
  | [l] => l
  | l :: l2 :: rest => l ++ '\n' :: joinNl (l2 :: rest)

/-- Helper for `pyWords`: the first argument is the remaining input, the second the
current (reversed) word being accumulated. -/
def pyWordsAux : Str → Str → List Str
  | [], acc => if acc.isEmpty then [] else [acc.reverse]
  | c :: rest, acc =>
    if isWS c then
      if acc.isEmpty then pyWordsAux rest [] else acc.reverse :: pyWordsAux rest []
    else pyWordsAux rest (c :: acc)

/-- Python `str.split()` with no argument: whitespace-separated words, empties dropped. -/
def pyWords (s : Str) : List Str := pyWordsAux s []

/-- Python `sub in s` (substring containment). -/
def containsSub (s pat : Str) : Bool :=
  (List.range (s.length + 1)).any (fun i => pat.isPrefixOf (s.drop i))

/-- Python `s.rfind(pat)`: index of the rightmost occurrence, if any. -/
def rfindSub (s pat : Str) : Option Nat :=
  ((List.range (s.length + 1)).filter (fun i => pat.isPrefixOf (s.drop i))).getLast?

/-- One step of Python dict counting: `counts[k] = counts.get(k, 0) + 1`. -/
def bump : List (Str × Nat) → Str → List (Str × Nat)
  | [], k => [(k, 1)]
  | (k', n) :: rest, k => if k' = k then (k', n + 1) :: rest else (k', n) :: bump rest k

/-- Total count recorded for key `s` in a count table. -/
def countOf (acc : List (Str × Nat)) (s : Str) : Nat :=
  ((acc.filter (fun p => p.1 == s)).map (fun p => p.2)).sum

/-- One line of the counting pass: only non-empty trimmed lines of trimmed length
below 200 are tracked. -/
def bcStep (acc : List (Str × Nat)) (line : Str) : List (Str × Nat) :=
  if strip line ≠ [] ∧ (strip line).length < 200 then bump acc (strip line) else acc

/-- The counting pass shared by `find_repeated_lines` (src/text_cleaner.py) and
`clean_extracted_text` (src/extractor.py): frequency table of non-empty trimmed
lines of trimmed length below 200. -/
def buildCounts (lines : List Str) : List (Str × Nat) :=
  lines.foldl bcStep []

/-- `find_repeated_lines` from src/text_cleaner.py: the distinct trimmed contents
occurring 3+ times. -/
def find_repeated_lines (lines : List Str) : List Str :=
  ((buildCounts lines).filter (fun p => decide (3 ≤ p.2))).map (fun p => p.1)

/-- Scanner for the page-break patterns, starting at the first dash run:
`-{d,}\s*Page\s*Break\s*-{d,}\s*$` with `d` the minimum dash count. -/
def pbAfterDashes (minDash : Nat) (r : Str) : Bool :=
  if (r.takeWhile (fun c => c == '-')).length < minDash then false
  else
    let r1 := (r.dropWhile (fun c => c == '-')).dropWhile isWS
    if "Page".toList.isPrefixOf r1 then
      let r2 := (r1.drop 4).dropWhile isWS
      if "Break".toList.isPrefixOf r2 then
        let r3 := (r2.drop 5).dropWhile isWS
        if (r3.takeWhile (fun c => c == '-')).length < minDash then false
        else ((r3.dropWhile (fun c => c == '-')).dropWhile isWS).isEmpty
      else false
    else false

/-- Whole-line match of `^##?\s*-{2,}\s*Page\s*Break\s*-{2,}\s*$`
(first substitution in `remove_page_breaks`): one mandatory and one optional
`'#'`, then whitespace, then the dash-delimited `Page Break` body. -/
def pbMatch1 (l : Str) : Bool :=
  if "#".toList.isPrefixOf l then
    let r := l.drop 1
    let r1 := if "#".toList.isPrefixOf r then r.drop 1 else r
    pbAfterDashes 2 (r1.dropWhile isWS)
  else false

/-- Whole-line match of `^-{3,}\s*Page\s*Break\s*-{3,}\s*$`
(second substitution in `remove_page_breaks`). -/
def pbMatch2 (l : Str) : Bool := pbAfterDashes 3 l

/-- Effect of the two substitutions of `remove_page_breaks` on a single line. -/
def pbLine (l : Str) : Str := if pbMatch1 l then [] else if pbMatch2 l then [] else l

/-- `remove_page_breaks` from src/text_cleaner.py, applied line by line
(the patterns are `(?m)^...$`-anchored whole-line matches). -/
def remove_page_breaks (text : Str) : Str :=
  joinNl ((splitNl text).map pbLine)

/-- Exact comparison `a / b > n / d` of the ratio of two naturals against a
positive threshold fraction, by cross-multiplication.  The source compares IEEE
doubles; for the counts and thresholds the code uses, the double comparison and
the exact rational comparison agree (at an exact threshold hit both are false,
and away from it the gap far exceeds double rounding error). -/
def ratioGt (a b n d : Nat) : Bool := decide (n * b < d * a)

/-- Exact comparison `a / b < n / d`, as `ratioGt`. -/
def ratioLt (a b n d : Nat) : Bool := decide (d * a < n * b)

/-- Numerator of `get_digit_hex_ratio` from src/text_cleaner.py: the number of
digit or hex-letter (a-f, x, case-insensitive) characters. -/
def digitHexCount (s : Str) : Nat :=
  s.countP (fun c => c.isDigit || (c.toLower ∈ ['a', 'b', 'c', 'd', 'e', 'f', 'x']))

/-- The test `get_digit_hex_ratio(s) > n/d`: `get_digit_hex_ratio` returns 0.0 on
the empty string and `digitHexCount s / len(s)` otherwise. -/
def get_digit_hex_ratio_gt (s : Str) (n d : Nat) : Bool :=
  if s = [] then false else ratioGt (digitHexCount s) s.length n d

/-- Length of a greedy match of `Pixel\s+\d+` at the head of `l`, if any. -/
def matchPixelLen (l : Str) : Option Nat :=
  if "Pixel".toList.isPrefixOf l then
    let r := l.drop 5
    let w := (r.takeWhile isWS).length
    if w = 0 then none
    else
      let d := ((r.drop w).takeWhile Char.isDigit).length
      if d = 0 then none else some (5 + w + d)
  else none

/-- Count the non-overlapping, leftmost-first matches of a scanner, as
`re.findall` does.  The fuel argument is initialised with the string length,
which bounds the number of scanning steps. -/
def countMatchesAux (f : Str → Option Nat) : Nat → Str → Nat
  | 0, _ => 0
  | _ + 1, [] => 0
  | fuel + 1, c :: rest =>
    match f (c :: rest) with
    | some k => 1 + countMatchesAux f fuel ((c :: rest).drop k)
    | none => countMatchesAux f fuel rest

/-- Number of `re.findall(r'Pixel\s+\d+', line)` matches. -/
def countPixelMatches (s : Str) : Nat := countMatchesAux matchPixelLen s.length s

/-- `contains_pixel_sequence` from src/text_cleaner.py. -/
def contains_pixel_sequence (line : Str) : Bool := decide (5 ≤ countPixelMatches line)

/-- Length of a greedy match of `0x[0-9A-Fa-f]{2,}` at the head of `l`, if any. -/
def matchHexLen (l : Str) : Option Nat :=
  match l with
  | '0' :: 'x' :: r =>
    let d := (r.takeWhile (fun c =>
      c.isDigit || (c.toLower ∈ ['a', 'b', 'c', 'd', 'e', 'f']))).length
    if 2 ≤ d then some (2 + d) else none
  | _ => none

/-- Number of `re.findall(r'0x[0-9A-Fa-f]{2,}', line)` matches. -/
def countHexMatches (s : Str) : Nat := countMatchesAux matchHexLen s.length s

/-- `contains_hex_sequence` from src/text_cleaner.py. -/
def contains_hex_sequence (line : Str) : Bool := decide (4 ≤ countHexMatches line)

/-- `is_calibration_data_line` from src/text_cleaner.py. -/
def is_calibration_data_line (line : Str) : Bool :=
  (containsSub line "ThGrad".toList || containsSub line "ThOffset".toList ||
      containsSub line "VddCompGrad".toList || containsSub line "VddCompOff".toList) &&
    contains_pixel_sequence line

/-- `is_likely_heading` from src/text_cleaner.py; the uppercase-share test
`uppercase_count / len(letters) > 0.4` is the exact comparison `ratioGt _ _ 2 5`. -/
def is_likely_heading (line : Str) : Bool :=
  let trimmed := strip line
  if 80 < trimmed.length || trimmed.length < 3 then false
  else if "#".toList.isPrefixOf trimmed then true
  else
    let letters := trimmed.filter (fun c => c.isAlpha)
    if letters = [] then false
    else ratioGt (letters.countP (fun c => c.isUpper)) letters.length 2 5

/-- Tail of the page-number pattern after the `(of|/)` alternative:
`\s*\d+\s*$`. -/
def pageNumTail (r : Str) : Bool :=
  let r1 := r.dropWhile isWS
  !(r1.takeWhile Char.isDigit).isEmpty &&
    ((r1.dropWhile Char.isDigit).dropWhile isWS).isEmpty

/-- Middle of the page-number pattern: `\d+\s*(of|/)` followed by `pageNumTail`. -/
def pageNumRest (l : Str) : Bool :=
  let d1 := l.takeWhile Char.isDigit
  if d1 = [] then false
  else
    match (l.dropWhile Char.isDigit).dropWhile isWS with
    | 'o' :: 'f' :: r2 => pageNumTail r2
    | '/' :: r2 => pageNumTail r2
    | _ => false

/-- Full match of `^(page\s+)?\d+\s*(of|/)\s*\d+\s*$` on a lower-cased line. -/
def pageNumMatch (l : Str) : Bool :=
  if "page".toList.isPrefixOf l then
    let r := l.drop 4
    if (r.takeWhile isWS).length = 0 then false
    else pageNumRest (r.dropWhile isWS)
  else pageNumRest l

/-- `is_page_number_line` from src/text_cleaner.py. -/
def is_page_number_line (line : Str) : Bool :=
  let trimmed := strip line
  if 50 < trimmed.length then false
  else pageNumMatch (trimmed.map Char.toLower)

/-- The seven footer indicator substrings of `is_contact_footer`. -/
def footerIndicators : List Str :=
  ["customer support", "www.heimannsensor", "maria-reiche-str", "info@heimann",
    "fax 49", "phone 49", "d-01109 dresden"].map String.toList

/-- `is_contact_footer` from src/text_cleaner.py. -/
def is_contact_footer (line : Str) : Bool :=
  let trimmed := strip line
  if 200 < trimmed.length then false
  else
    let lower := trimmed.map Char.toLower
    decide (3 ≤ footerIndicators.countP (fun ind => containsSub lower ind))

/-- Condition of the digit/hex-ratio rule of `clean_line`
(`len(trimmed) > 300 and get_digit_hex_ratio(trimmed) > 0.6`; `0.6 = 3/5`). -/
def rule6Cond (trimmed : Str) : Bool :=
  decide (300 < trimmed.length) && get_digit_hex_ratio_gt trimmed 3 5

/-- Condition of the low-space-ratio rule of `clean_line`
(`len(line) > 500` and `line.count(' ') / len(line) < 0.05`; `0.05 = 1/20`). -/
def rule10Cond (line : Str) : Bool :=
  decide (500 < line.length) && ratioLt (line.count ' ') line.length 1 20

/-- Condition of the single-long-word rule of `clean_line`
(`len(line) > 200 and ' ' not in line`). -/
def rule11Cond (line : Str) : Bool :=
  decide (200 < line.length) && !(line.contains ' ')

/-- Word-frequency table of `clean_line`'s repetition rule:
`Counter(w.lower() for w in words)`. -/
def wordCounts (ws : List Str) : List (Str × Nat) :=
  ws.foldl (fun acc w => bump acc (w.map Char.toLower)) []

/-- Python `max` over a list of naturals (meaningful only on non-empty lists). -/
def maxNat (l : List Nat) : Nat := l.foldl Nat.max 0

/-- Condition of the degenerate-repetition rule of `clean_line`
(`len(line) > 500`, more than 50 words, and either the top word's share exceeds
0.4 (`2/5`) or the distinct-word share is below 0.1 (`1/10`)). -/
def rule12Cond (line : Str) : Bool :=
  decide (500 < line.length) &&
    (let ws := pyWords line
     decide (50 < ws.length) &&
       (let cs := wordCounts ws
        ratioGt (maxNat (cs.map (fun p => p.2))) ws.length 2 5 ||
          ratioLt cs.length ws.length 1 10))

/-- `clean_line` from src/text_cleaner.py: the ordered per-line rule chain. -/
def clean_line (line : Str) (repeated : List Str) : Str :=
  let trimmed := strip line
  if trimmed = [] then []
  else if 2000 < line.length then "[content removed]".toList
  else if decide (trimmed ∈ repeated) && !is_likely_heading trimmed then []
  else if is_page_number_line trimmed then []
  else if is_contact_footer trimmed then []
  else if rule6Cond trimmed then "[data removed]".toList
  else if contains_pixel_sequence trimmed then "[pixel data removed]".toList
  else if contains_hex_sequence trimmed then "[address data removed]".toList
  else if is_calibration_data_line trimmed then "[calibration data removed]".toList
  else if rule10Cond line then "[content removed]".toList
  else if rule11Cond line then "[content removed]".toList
  else if rule12Cond line then "[content removed]".toList
  else line

/-- Placeholder-line test of `collapse_removed_lines`
(`line.startswith('[') and line.endswith(' removed]')`). -/
def isRemovedMarker (l : Str) : Bool :=
  "[".toList.isPrefixOf l && " removed]".toList.isSuffixOf l

/-- Loop of `collapse_removed_lines`; the two flags are `prev_was_removed` and
`prev_was_empty`. -/
def collapseAux : List Str → Bool → Bool → List Str
  | [], _, _ => []
  | l :: rest, prevRemoved, prevEmpty =>
    if isRemovedMarker l then
      (if prevRemoved then [] else [l]) ++ collapseAux rest true false
    else if strip l = [] then
      (if prevRemoved || prevEmpty then [] else [([] : Str)]) ++ collapseAux rest false true
    else l :: collapseAux rest false false

/-- `collapse_removed_lines` from src/text_cleaner.py. -/
def collapse_removed_lines (text : Str) : Str :=
  joinNl (collapseAux (splitNl text) false false)

/-- Helper for `normalizeNewlines`: fuel-indexed scan; the fuel is initialised
with the string length, which bounds the number of steps. -/
def normNlAux : Nat → Str → Str
  | 0, _ => []
  | _ + 1, [] => []
  | fuel + 1, c :: rest =>
    if c == '\n' then
      let k := 1 + (rest.takeWhile (fun x => x == '\n')).length
      (if 4 ≤ k then List.replicate 3 '\n' else List.replicate k '\n') ++
        normNlAux fuel (rest.dropWhile (fun x => x == '\n'))
    else c :: normNlAux fuel rest

/-- `re.sub(r'\n{4,}', '\n\n\n', ...)`: every maximal run of 4 or more newlines
is replaced by exactly three. -/
def normalizeNewlines (s : Str) : Str := normNlAux s.length s

/-- The markdown-fence unwrap at the top of `clean_text`. -/
def fenceStrip (cleaned : Str) : Str :=
  if "```markdown\n".toList.isPrefixOf cleaned ||
      "```markdown\r\n".toList.isPrefixOf cleaned then
    match rfindSub cleaned "```".toList with
    | some e =>
      if 15 < e then
        match cleaned.findIdx? (fun c => c == '\n') with
        | some fn => strip ((cleaned.drop (fn + 1)).take (e - (fn + 1)))
        | none => cleaned
      else cleaned
    | none => cleaned
  else if "```\n".toList.isPrefixOf cleaned || "```\r\n".toList.isPrefixOf cleaned then
    match rfindSub cleaned "```".toList with
    | some e =>
      if 4 < e then
        match cleaned.findIdx? (fun c => c == '\n') with
        | some fn => strip ((cleaned.drop (fn + 1)).take (e - (fn + 1)))
        | none => cleaned
      else cleaned
    | none => cleaned
  else cleaned

/-- `clean_text` from src/text_cleaner.py: the full main cleaning pipeline. -/
def clean_text (text : Str) : Str :=
  let cleaned := fenceStrip (strip text)
  let lines := splitNl cleaned
  let repeated := find_repeated_lines lines
  let processed := lines.map (fun l => clean_line l repeated)
  strip (normalizeNewlines (collapse_removed_lines (remove_page_breaks (joinNl processed))))

/-- Full match of `^\d+$`. -/
def isAllDigits (w : Str) : Bool := !w.isEmpty && w.all Char.isDigit

/-- `is_numeric_garbage` from src/extractor.py; `> 0.8 = 4/5` and `> 0.7 = 7/10`
are the exact comparisons `ratioGt _ _ 4 5` and `ratioGt _ _ 7 10`. -/
def is_numeric_garbage (line : Str) : Bool :=
  let stripped := strip line
  if stripped = [] then false
  else if isAllDigits stripped then true
  else if 5 ≤ (pyWords stripped).length &&
      ratioGt ((pyWords stripped).countP isAllDigits) (pyWords stripped).length 4 5 then
    true
  else if 50 < stripped.length &&
      ratioGt (stripped.countP Char.isDigit) stripped.length 7 10 then
    true
  else false

/-- Tail of the extractor page-number pattern after the `(of|/)` alternative:
`\s+\d+\s*$`. -/
def etPageTail (r : Str) : Bool :=
  if (r.takeWhile isWS).length = 0 then false
  else
    let r1 := r.dropWhile isWS
    !(r1.takeWhile Char.isDigit).isEmpty &&
      ((r1.dropWhile Char.isDigit).dropWhile isWS).isEmpty

/-- Full case-insensitive match of `^Page\s+\d+\s+(of|/)\s+\d+\s*$`
(src/extractor.py, the page-number skip). -/
def et_is_page_number (stripped : Str) : Bool :=
  let l := stripped.map Char.toLower
  if "page".toList.isPrefixOf l then
    let r := l.drop 4
    if (r.takeWhile isWS).length = 0 then false
    else
      let r1 := r.dropWhile isWS
      let d1 := r1.takeWhile Char.isDigit
      if d1 = [] then false
      else
        let r2 := r1.dropWhile Char.isDigit
        if (r2.takeWhile isWS).length = 0 then false
        else
          match r2.dropWhile isWS with
          | 'o' :: 'f' :: r3 => etPageTail r3
          | '/' :: r3 => etPageTail r3
          | _ => false
  else false

/-- The placeholder emitted by `clean_extracted_text`. -/
def numericPlaceholder : Str := "[numeric data removed]".toList

/-- Second pass of `clean_extracted_text`: filter garbage; the flags are
`prev_empty` and `numeric_run`. -/
def secondPass (seen : List (Str × Nat)) : List Str → Bool → Nat → List Str
  | [], _, _ => []
  | line :: rest, prevEmpty, run =>
    let stripped := strip line
    if stripped ≠ [] ∧ 3 ≤ countOf seen stripped then secondPass seen rest prevEmpty run
    else if et_is_page_number stripped then secondPass seen rest prevEmpty run
    else if is_numeric_garbage stripped then
      (if run + 1 = 3 then [numericPlaceholder] else []) ++ secondPass seen rest prevEmpty (run + 1)
    else if stripped = [] then
      (if prevEmpty then [] else [([] : Str)]) ++ secondPass seen rest true 0
    else line :: secondPass seen rest false 0

/-- Third pass of `clean_extracted_text`: collapse consecutive
`[numeric data removed]` markers. -/
def collapseMarkers : List Str → Bool → List Str
  | [], _ => []
  | l :: rest, prev =>
    if l = numericPlaceholder then
      (if prev then [] else [l]) ++ collapseMarkers rest true
    else l :: collapseMarkers rest false

/-- `clean_extracted_text` from src/extractor.py. -/
def clean_extracted_text (text : Str) : Str :=
  let lines := splitNl text
  let seen := buildCounts lines
  joinNl (collapseMarkers (secondPass seen lines false 0) false)

/-! ### Specification-side auxiliary definitions -/

/-- A line is skipped by the second pass of `clean_extracted_text` when it repeats
3+ times or is a page-number line; skipped lines are complete no-ops of the pass. -/
def skipET (seen : List (Str × Nat)) (l : Str) : Bool :=
  (decide (strip l ≠ []) && decide (3 ≤ countOf seen (strip l))) ||
    et_is_page_number (strip l)

/-- Number of placeholders the numeric-run counter emits on a flag sequence,
starting from counter value `r`: one each time the counter reaches exactly 3. -/
def countEmits : List Bool → Nat → Nat
  | [], _ => 0
  | b :: bs, r =>
    if b then (if r + 1 = 3 then 1 else 0) + countEmits bs (r + 1) else countEmits bs 0

/-- Lengths of the maximal runs of `true` in a flag sequence; `r` is the length
of the run in progress. -/
def trueRunsAux : List Bool → Nat → List Nat
  | [], r => if r = 0 then [] else [r]
  | true :: bs, r => trueRunsAux bs (r + 1)
  | false :: bs, r => if r = 0 then trueRunsAux bs 0 else r :: trueRunsAux bs 0

/-- Number of maximal runs of `true` of length at least 3 in a flag sequence. -/
def runsGE3 (flags : List Bool) : Nat :=
  ((trueRunsAux flags 0).filter (fun k => decide (3 ≤ k))).length

/-- Does the string start with three newline characters? -/
def startsWithTriple (s : Str) : Bool :=
  match s with
  | c1 :: c2 :: c3 :: _ => c1 == '\n' && c2 == '\n' && c3 == '\n'
  | _ => false

/-- Does the string contain three consecutive newline characters anywhere? -/
def hasTripleNewline : Str → Bool
  | [] => false
  | c :: rest => startsWithTriple (c :: rest) || hasTripleNewline rest

/-- No two adjacent elements of the line list are both empty. -/
def noTwoAdjacentEmpty : List Str → Bool
  | a :: b :: rest => !(a.isEmpty && b.isEmpty) && noTwoAdjacentEmpty (b :: rest)
  | _ => true

/-! ### Checked (error-aware) variants

Each Python division site is modelled by an `Option`-valued operation that fails
(`none`, the image of a `ZeroDivisionError`) when the divisor is zero, and
Python's `max` over an empty collection fails likewise; everything else is
threaded unchanged.  Claim C1 is the statement that these checked pipelines
always return `some` of the total pipelines. -/

/-- Checked `a / b > n / d`: the source evaluates `a / b`, which raises when
`b = 0`. -/
def ratioGtChk (a b n d : Nat) : Option Bool :=
  if b = 0 then none else some (ratioGt a b n d)

/-- Checked `a / b < n / d`. -/
def ratioLtChk (a b n d : Nat) : Option Bool :=
  if b = 0 then none else some (ratioLt a b n d)

/-- Checked `get_digit_hex_ratio(s) > n/d` (the internal empty-string guard of
`get_digit_hex_ratio` returns 0.0 without dividing). -/
def get_digit_hex_ratio_gtChk (s : Str) (n d : Nat) : Option Bool :=
  if s = [] then some false else ratioGtChk (digitHexCount s) s.length n d

/-- Checked `is_likely_heading` (division by the letter count). -/
def is_likely_headingChk (line : Str) : Option Bool :=
  let trimmed := strip line
  if 80 < trimmed.length || trimmed.length < 3 then some false
  else if "#".toList.isPrefixOf trimmed then some true
  else
    let letters := trimmed.filter (fun c => c.isAlpha)
    if letters = [] then some false
    else ratioGtChk (letters.countP (fun c => c.isUpper)) letters.length 2 5

/-- Checked digit/hex-ratio rule; the ratio is evaluated only when the length
guard holds, like the short-circuit `and` in the source. -/
def rule6CondChk (trimmed : Str) : Option Bool :=
  if 300 < trimmed.length then get_digit_hex_ratio_gtChk trimmed 3 5 else some false

/-- Checked low-space-ratio rule (division by the raw line length). -/
def rule10CondChk (line : Str) : Option Bool :=
  if 500 < line.length then ratioLtChk (line.count ' ') line.length 1 20 else some false

/-- Checked Python `max` over a list of naturals: fails on the empty list. -/
def maxNatChk (l : List Nat) : Option Nat :=
  match l with
  | [] => none
  | _ => some (maxNat l)

/-- Checked degenerate-repetition rule (`max` over the word counts and two
divisions by the word count). -/
def rule12CondChk (line : Str) : Option Bool :=
  if 500 < line.length then
    let ws := pyWords line
    if 50 < ws.length then
      let cs := wordCounts ws
      (maxNatChk (cs.map (fun p => p.2))).bind fun mx =>
        (ratioGtChk mx ws.length 2 5).bind fun b1 =>
          if b1 then some true else ratioLtChk cs.length ws.length 1 10
    else some false
  else some false

/-- Checked `clean_line`: every division site of the rule chain is checked. -/
def clean_lineChk (line : Str) (repeated : List Str) : Option Str :=
  if strip line = [] then some []
  else if 2000 < line.length then some "[content removed]".toList
  else
    (if strip line ∈ repeated then
        (is_likely_headingChk (strip line)).map (fun h => !h)
      else some false).bind fun dropRep =>
      if dropRep then some []
      else if is_page_number_line (strip line) then some []
      else if is_contact_footer (strip line) then some []
      else
        (rule6CondChk (strip line)).bind fun r6 =>
          if r6 then some "[data removed]".toList
          else if contains_pixel_sequence (strip line) then some "[pixel data removed]".toList
          else if contains_hex_sequence (strip line) then some "[address data removed]".toList
          else if is_calibration_data_line (strip line) then
            some "[calibration data removed]".toList
          else
            (rule10CondChk line).bind fun r10 =>
              if r10 then some "[content removed]".toList
              else if rule11Cond line then some "[content removed]".toList
              else
                (rule12CondChk line).bind fun r12 =>
                  if r12 then some "[content removed]".toList else some line

/-- Apply a fallible function to every element, failing if any application fails. -/
def mapOpt (f : α → Option β) : List α → Option (List β)
  | [] => some []
  | a :: rest =>
    match f a, mapOpt f rest with
    | some b, some bs => some (b :: bs)
    | _, _ => none

/-- Checked `clean_text`: the full pipeline with checked `clean_line`. -/
def clean_textChk (text : Str) : Option Str :=
  let cleaned := fenceStrip (strip text)
  let lines := splitNl cleaned
  let repeated := find_repeated_lines lines
  (mapOpt (fun l => clean_lineChk l repeated) lines).map fun processed =>
    strip (normalizeNewlines (collapse_removed_lines
      (remove_page_breaks (joinNl processed))))

/-- Checked `is_numeric_garbage` (two division sites). -/
def is_numeric_garbageChk (line : Str) : Option Bool :=
  let stripped := strip line
  if stripped = [] then some false
  else if isAllDigits stripped then some true
  else
    (if 5 ≤ (pyWords stripped).length then
        ratioGtChk ((pyWords stripped).countP isAllDigits) (pyWords stripped).length 4 5
      else some false).bind fun b2 =>
      if b2 then some true
      else
        (if 50 < stripped.length then
            ratioGtChk (stripped.countP Char.isDigit) stripped.length 7 10
          else some false).bind fun b3 => some b3

/-- Checked second pass of `clean_extracted_text`. -/
def secondPassChk (seen : List (Str × Nat)) : List Str → Bool → Nat → Option (List Str)
  | [], _, _ => some []
  | line :: rest, prevEmpty, run =>
    if strip line ≠ [] ∧ 3 ≤ countOf seen (strip line) then
      secondPassChk seen rest prevEmpty run
    else if et_is_page_number (strip line) then secondPassChk seen rest prevEmpty run
    else
      (is_numeric_garbageChk (strip line)).bind fun g =>
        if g then
          (secondPassChk seen rest prevEmpty (run + 1)).map
            (fun r => (if run + 1 = 3 then [numericPlaceholder] else []) ++ r)
        else if strip line = [] then
          (secondPassChk seen rest true 0).map
            (fun r => (if prevEmpty then [] else [([] : Str)]) ++ r)
        else (secondPassChk seen rest false 0).map (fun r => line :: r)

/-- Checked `clean_extracted_text`. -/
def clean_extracted_textChk (text : Str) : Option Str :=
  let lines := splitNl text
  let seen := buildCounts lines
  (secondPassChk seen lines false 0).map fun cleaned =>
    joinNl (collapseMarkers cleaned false)

/-! ### Basic string lemmas -/

theorem head?_dropWhile_false {p : Char → Bool} :
    ∀ (l : Str) (c : Char), (l.dropWhile p).head? = some c → p c = false := by
  intro l
  induction l with
  | nil => intro c h; simp [List.dropWhile] at h
  | cons a t ih =>
    intro c h
    by_cases hp : p a
    · rw [List.dropWhile_cons_of_pos hp] at h
      exact ih c h
    · rw [List.dropWhile_cons_of_neg hp] at h
      simp only [List.head?_cons, Option.some.injEq] at h
      subst h
      simpa using hp

theorem dropWhile_dropWhile {p : Char → Bool} (l : Str) :
    (l.dropWhile p).dropWhile p = l.dropWhile p := by
  cases h : l.dropWhile p with
  | nil => rfl
  | cons a t =>
    have ha : p a = false := head?_dropWhile_false l a (by rw [h]; rfl)
    rw [List.dropWhile_cons_of_neg (by simp [ha])]

theorem dropWhile_reverse_dropWhile (s : Str) :
    ((((s.dropWhile isWS).reverse.dropWhile isWS).reverse).dropWhile isWS) =
      ((s.dropWhile isWS).reverse.dropWhile isWS).reverse := by
  cases hvr : ((s.dropWhile isWS).reverse.dropWhile isWS).reverse with
  | nil => rfl
  | cons a t =>
    have hlast : ((s.dropWhile isWS).reverse.dropWhile isWS).getLast? = some a := by
      rw [← List.head?_reverse, hvr]; rfl
    obtain ⟨t', ht'⟩ :=
      (List.dropWhile_suffix isWS :
        (s.dropWhile isWS).reverse.dropWhile isWS <:+ (s.dropWhile isWS).reverse)
    have h2 : (s.dropWhile isWS).reverse.getLast? = some a := by
      rw [← ht', List.getLast?_append, hlast]; rfl
    have h3 : (s.dropWhile isWS).head? = some a := by
      rw [← List.getLast?_reverse]; exact h2
    have ha : isWS a = false := head?_dropWhile_false s a h3
    rw [List.dropWhile_cons_of_neg (by simp [ha])]

theorem strip_strip (s : Str) : strip (strip s) = strip s := by
  unfold strip
  rw [dropWhile_reverse_dropWhile s, List.reverse_reverse, dropWhile_dropWhile]

theorem takeWhile_replicate_append {p : Char → Bool} {c : Char} (hp : p c = true) :
    ∀ (n : Nat) (rest : Str),
      (List.replicate n c ++ rest).takeWhile p = List.replicate n c ++ rest.takeWhile p := by
  intro n
  induction n with
  | zero => intro rest; simp
  | succ k ih =>
    intro rest
    rw [List.replicate_succ, List.cons_append, List.takeWhile_cons_of_pos hp, ih,
      List.cons_append]

theorem dropWhile_replicate_append {p : Char → Bool} {c : Char} (hp : p c = true) :
    ∀ (n : Nat) (rest : Str),
      (List.replicate n c ++ rest).dropWhile p = rest.dropWhile p := by
  intro n
  induction n with
  | zero => intro rest; simp
  | succ k ih =>
    intro rest
    rw [List.replicate_succ, List.cons_append, List.dropWhile_cons_of_pos hp, ih]

theorem pyWordsAux_replicate_space (n : Nat) (rest : Str) :
    pyWordsAux (List.replicate n ' ' ++ rest) [] = pyWordsAux rest [] := by
  induction n with
  | zero => simp
  | succ k ih =>
    rw [List.replicate_succ, List.cons_append]
    have h1 : isWS ' ' = true := by decide
    simp [pyWordsAux, h1, ih]

theorem splitNl_ne_nil : ∀ s : Str, splitNl s ≠ []
  | [] => by simp [splitNl]
  | c :: rest => by
    unfold splitNl
    split
    · simp
    · cases h : splitNl rest <;> simp

theorem joinNl_splitNl (s : Str) : joinNl (splitNl s) = s := by
  induction s with
  | nil => rfl
  | cons c rest ih =>
    unfold splitNl
    by_cases h : c == '\n'
    · rw [if_pos h]
      cases hs : splitNl rest with
      | nil => exact absurd hs (splitNl_ne_nil rest)
      | cons hh tt =>
        have : joinNl ([] :: hh :: tt) = '\n' :: joinNl (hh :: tt) := rfl
        rw [this, ← hs, ih]
        have hc : c = '\n' := by simpa using h
        rw [hc]
    · rw [if_neg h]
      cases hs : splitNl rest with
      | nil => exact absurd hs (splitNl_ne_nil rest)
      | cons hh tt =>
        cases tt with
        | nil =>
          have : joinNl [c :: hh] = c :: hh := rfl
          rw [this]
          have h2 : joinNl [hh] = rest := by rw [← hs]; exact ih
          have h3 : joinNl [hh] = hh := rfl
          rw [h3] at h2
          rw [h2]
        | cons t2 tt' =>
          have : joinNl ((c :: hh) :: t2 :: tt') = (c :: hh) ++ '\n' :: joinNl (t2 :: tt') := rfl
          rw [this]
          have h2 : joinNl (hh :: t2 :: tt') = rest := by rw [← hs]; exact ih
          have h3 : joinNl (hh :: t2 :: tt') = hh ++ '\n' :: joinNl (t2 :: tt') := rfl
          rw [h3] at h2
          simpa using h2

theorem nl_not_mem_splitNl : ∀ s : Str, ∀ l ∈ splitNl s, ('\n' : Char) ∉ l := by
  intro s
  induction s with
  | nil =>
    intro l hl
    simp only [splitNl, List.mem_singleton] at hl
    simp [hl]
  | cons c rest ih =>
    intro l hl
    unfold splitNl at hl
    by_cases h : c == '\n'
    · rw [if_pos h] at hl
      rcases List.mem_cons.mp hl with rfl | hl
      · simp
      · exact ih l hl
    · rw [if_neg h] at hl
      cases hs : splitNl rest with
      | nil => exact absurd hs (splitNl_ne_nil rest)
      | cons hh tt =>
        rw [hs] at hl
        rcases List.mem_cons.mp hl with rfl | hl
        · intro hmem
          rcases List.mem_cons.mp hmem with hc | hmem'
          · exact h (by simp [hc.symm])
          · exact ih hh (hs ▸ List.mem_cons_self hh tt) hmem'
        · exact ih l (hs ▸ List.mem_cons_of_mem hh hl)

/-! ### Counting-table lemmas -/

theorem countOf_nil (s : Str) : countOf [] s = 0 := rfl

theorem countOf_cons (k : Str) (n : Nat) (rest : List (Str × Nat)) (s : Str) :
    countOf ((k, n) :: rest) s = (if k = s then n else 0) + countOf rest s := by
  unfold countOf
  by_cases h : k = s
  · subst h
    simp [List.filter_cons]
  · simp [List.filter_cons, h]

theorem countOf_bump (acc : List (Str × Nat)) (k s : Str) :
    countOf (bump acc k) s = countOf acc s + (if k = s then 1 else 0) := by
  induction acc with
  | nil =>
    simp only [bump, countOf_cons, countOf_nil]
    by_cases hs : k = s <;> simp [hs]
  | cons p rest ih =>
    obtain ⟨k', n⟩ := p
    by_cases h : k' = k
    · subst h
      have hb : bump ((k', n) :: rest) k' = (k', n + 1) :: rest := by
        simp [bump]
      rw [hb, countOf_cons, countOf_cons]
      by_cases hs : k' = s
      · rw [if_pos hs, if_pos hs, if_pos hs]
        omega
      · rw [if_neg hs, if_neg hs, if_neg hs]
        omega
    · simp only [bump, if_neg h, countOf_cons, ih]
      omega

theorem countOf_eq_zero (acc : List (Str × Nat)) (s : Str)
    (h : s ∉ acc.map Prod.fst) : countOf acc s = 0 := by
  induction acc with
  | nil => rfl
  | cons p rest ih =>
    obtain ⟨k, n⟩ := p
    simp only [List.map_cons, List.mem_cons] at h
    push_neg at h
    rw [countOf_cons, if_neg (Ne.symm h.1), ih h.2]

theorem countOf_eq_of_mem (acc : List (Str × Nat)) (s : Str) (n : Nat)
    (hnd : (acc.map Prod.fst).Nodup) (h : (s, n) ∈ acc) : countOf acc s = n := by
  induction acc with
  | nil => simp at h
  | cons p rest ih =>
    obtain ⟨k, m⟩ := p
    simp only [List.map_cons, List.nodup_cons] at hnd
    rcases List.mem_cons.mp h with heq | hmem
    · obtain ⟨rfl, rfl⟩ := Prod.mk.injEq .. ▸ heq
      rw [countOf_cons, if_pos rfl,
        countOf_eq_zero rest s hnd.1, Nat.add_zero]
    · have hks : k ≠ s := by
        intro hk
        exact hnd.1 (hk ▸ List.mem_map.mpr ⟨(s, n), hmem, rfl⟩)
      rw [countOf_cons, if_neg hks, ih hnd.2 hmem, Nat.zero_add]

theorem mem_keys_of_countOf_ne_zero (acc : List (Str × Nat)) (s : Str)
    (h : countOf acc s ≠ 0) : s ∈ acc.map Prod.fst := by
  by_contra hmem
  exact h (countOf_eq_zero acc s hmem)

theorem mem_keys_bump (acc : List (Str × Nat)) (k s : Str) :
    s ∈ (bump acc k).map Prod.fst ↔ s ∈ acc.map Prod.fst ∨ s = k := by
  induction acc with
  | nil => simp [bump, eq_comm]
  | cons p rest ih =>
    obtain ⟨k', n⟩ := p
    by_cases h : k' = k
    · subst h
      have hb : bump ((k', n) :: rest) k' = (k', n + 1) :: rest := by
        simp [bump]
      rw [hb]
      simp only [List.map_cons, List.mem_cons]
      tauto
    · simp only [bump, if_neg h, List.map_cons, List.mem_cons, ih]
      tauto

theorem nodup_keys_bump (acc : List (Str × Nat)) (k : Str)
    (h : (acc.map Prod.fst).Nodup) : ((bump acc k).map Prod.fst).Nodup := by
  induction acc with
  | nil => simp [bump]
  | cons p rest ih =>
    obtain ⟨k', n⟩ := p
    simp only [List.map_cons, List.nodup_cons] at h
    by_cases hk : k' = k
    · subst hk
      have hb : bump ((k', n) :: rest) k' = (k', n + 1) :: rest := by
        simp [bump]
      rw [hb]
      simp only [List.map_cons, List.nodup_cons]
      exact ⟨h.1, h.2⟩
    · simp only [bump, if_neg hk, List.map_cons, List.nodup_cons]
      refine ⟨fun hmem => ?_, ih h.2⟩
      rcases (mem_keys_bump rest k k').mp hmem with h' | h'
      · exact h.1 h'
      · exact hk h'

theorem countOf_foldl_bcStep (lines : List Str) (s : Str) :
    ∀ acc, countOf (lines.foldl bcStep acc) s =
      countOf acc s +
        (if s ≠ [] ∧ s.length < 200 then lines.countP (fun l => strip l == s) else 0) := by
  induction lines with
  | nil =>
    intro acc
    split <;> simp
  | cons l ls ih =>
    intro acc
    rw [List.foldl_cons, ih (bcStep acc l), List.countP_cons]
    by_cases hsl : strip l = s
    · have hbeq : (strip l == s) = true := by simpa using hsl
      rw [hbeq]
      by_cases hse : s ≠ [] ∧ s.length < 200
      · have hel : strip l ≠ [] ∧ (strip l).length < 200 := by rw [hsl]; exact hse
        simp only [bcStep]
        rw [if_pos hel, countOf_bump, if_pos hsl, if_pos hse, if_pos hse]
        simp
        omega
      · have hel : ¬(strip l ≠ [] ∧ (strip l).length < 200) := by rw [hsl]; exact hse
        simp only [bcStep]
        rw [if_neg hel, if_neg hse, if_neg hse]
    · have hbeq : (strip l == s) = false := by simpa using hsl
      rw [hbeq]
      have hstep : countOf (bcStep acc l) s = countOf acc s := by
        simp only [bcStep]
        split
        · rw [countOf_bump, if_neg hsl, Nat.add_zero]
        · rfl
      rw [hstep]
      split <;> simp

theorem countOf_buildCounts (lines : List Str) (s : Str) :
    countOf (buildCounts lines) s =
      if s ≠ [] ∧ s.length < 200 then lines.countP (fun l => strip l == s) else 0 := by
  rw [buildCounts, countOf_foldl_bcStep lines s [], countOf_nil, Nat.zero_add]

theorem nodup_keys_buildCounts (lines : List Str) :
    ((buildCounts lines).map Prod.fst).Nodup := by
  rw [buildCounts]
  have h : ∀ acc : List (Str × Nat), (acc.map Prod.fst).Nodup →
      ((lines.foldl bcStep acc).map Prod.fst).Nodup := by
    induction lines with
    | nil => intro acc h; exact h
    | cons l ls ih =>
      intro acc h
      rw [List.foldl_cons]
      refine ih (bcStep acc l) ?_
      simp only [bcStep]
      split
      · exact nodup_keys_bump acc (strip l) h
      · exact h
  exact h [] (by simp)

/-! ### Claim C2 -/

/-- C2: `find_repeated_lines` returns exactly the set of distinct trimmed line
contents that occur at least 3 times among lines whose trimmed length is strictly
between 0 and 200 characters; a content occurring only 2 times, or only on lines
with trimmed length at least 200, is not in the returned set. -/
theorem c2_find_repeated_lines_spec (lines : List Str) :
    (find_repeated_lines lines).Nodup ∧
      ∀ s : Str, s ∈ find_repeated_lines lines ↔
        0 < s.length ∧ s.length < 200 ∧ 3 ≤ lines.countP (fun l => strip l == s) := by
  constructor
  · have h := nodup_keys_buildCounts lines
    unfold find_repeated_lines
    exact h.sublist ((List.filter_sublist _).map Prod.fst)
  · intro s
    constructor
    · intro hmem
      unfold find_repeated_lines at hmem
      rcases List.mem_map.mp hmem with ⟨⟨s', n⟩, hf, hfst⟩
      cases hfst
      rcases List.mem_filter.mp hf with ⟨hmem2, hn⟩
      have hn3 : 3 ≤ n := of_decide_eq_true hn
      have hcount : countOf (buildCounts lines) s' = n :=
        countOf_eq_of_mem _ _ _ (nodup_keys_buildCounts lines) hmem2
      rw [countOf_buildCounts] at hcount
      by_cases hel : s' ≠ [] ∧ s'.length < 200
      · rw [if_pos hel] at hcount
        exact ⟨List.length_pos.mpr hel.1, hel.2, hcount ▸ hn3⟩
      · rw [if_neg hel] at hcount
        omega
    · rintro ⟨hpos, hlen, hcnt⟩
      have hel : s ≠ [] ∧ s.length < 200 := ⟨List.ne_nil_of_length_pos hpos, hlen⟩
      have hcount : countOf (buildCounts lines) s = lines.countP (fun l => strip l == s) := by
        rw [countOf_buildCounts, if_pos hel]
      have hne : countOf (buildCounts lines) s ≠ 0 := by omega
      have hkey : s ∈ (buildCounts lines).map Prod.fst :=
        mem_keys_of_countOf_ne_zero _ _ hne
      rcases List.mem_map.mp hkey with ⟨⟨s', n⟩, hmem, hfst⟩
      cases hfst
      have heq : countOf (buildCounts lines) (s', n).1 = n :=
        countOf_eq_of_mem _ _ _ (nodup_keys_buildCounts lines) hmem
      unfold find_repeated_lines
      refine List.mem_map.mpr ⟨(s', n), List.mem_filter.mpr ⟨hmem, ?_⟩, rfl⟩
      exact decide_eq_true (by omega)

/-! ### Claim C3 -/

/-- C3 counterexample: the line `"ThGrad Pixel 1 Pixel 2 Pixel 3 Pixel 4 Pixel 5"`
satisfies the calibration predicate and is caught by none of rules 1 through 6, yet
`clean_line` emits `"[pixel data removed]"`, not `"[calibration data removed]"`. -/
theorem c3_calibration_rule_unreachable :
    is_calibration_data_line
        (strip "ThGrad Pixel 1 Pixel 2 Pixel 3 Pixel 4 Pixel 5".toList) = true ∧
      strip "ThGrad Pixel 1 Pixel 2 Pixel 3 Pixel 4 Pixel 5".toList ≠ [] ∧
      "ThGrad Pixel 1 Pixel 2 Pixel 3 Pixel 4 Pixel 5".toList.length ≤ 2000 ∧
      is_page_number_line
        (strip "ThGrad Pixel 1 Pixel 2 Pixel 3 Pixel 4 Pixel 5".toList) = false ∧
      is_contact_footer
        (strip "ThGrad Pixel 1 Pixel 2 Pixel 3 Pixel 4 Pixel 5".toList) = false ∧
      rule6Cond (strip "ThGrad Pixel 1 Pixel 2 Pixel 3 Pixel 4 Pixel 5".toList) = false ∧
      clean_line "ThGrad Pixel 1 Pixel 2 Pixel 3 Pixel 4 Pixel 5".toList [] ≠
        "[calibration data removed]".toList := by
  decide

/-- C3 amended: a line whose trimmed content satisfies the calibration predicate
(one of the four calibration keywords together with the pixel-sequence test) and
that is caught by none of rules 1 through 6 is emitted as `"[pixel data removed]"`:
the pixel-sequence rule precedes the calibration rule, whose tag is unreachable. -/
theorem c3_amended_calibration_lines_get_pixel_tag (line : Str) (repeated : List Str)
    (hcal : is_calibration_data_line (strip line) = true)
    (hlen : line.length ≤ 2000)
    (hrep : strip line ∈ repeated → is_likely_heading (strip line) = true)
    (hpage : is_page_number_line (strip line) = false)
    (hfoot : is_contact_footer (strip line) = false)
    (hr6 : rule6Cond (strip line) = false) :
    clean_line line repeated = "[pixel data removed]".toList := by
  have hpix : contains_pixel_sequence (strip line) = true := by
    have h := hcal
    simp only [is_calibration_data_line, Bool.and_eq_true] at h
    exact h.2
  have hne : strip line ≠ [] := by
    intro h0
    rw [h0] at hpix
    exact absurd hpix (by decide)
  have hrep' : (decide (strip line ∈ repeated) && !is_likely_heading (strip line)) = false := by
    by_cases hm : strip line ∈ repeated
    · simp [hm, hrep hm]
    · simp [hm]
  simp only [clean_line, if_neg hne, if_neg (show ¬2000 < line.length by omega), hrep',
    hpage, hfoot, hr6, hpix, Bool.false_eq_true, if_false, if_true]

/-- Witness for `c3_amended_calibration_lines_get_pixel_tag` at a concrete input. -/
theorem c3_amended_witness :
    clean_line "ThOffset Pixel 0 Pixel 1 Pixel 2 Pixel 3 Pixel 4".toList [] =
      "[pixel data removed]".toList :=
  c3_amended_calibration_lines_get_pixel_tag
    "ThOffset Pixel 0 Pixel 1 Pixel 2 Pixel 3 Pixel 4".toList []
    (by decide) (by decide) (by decide) (by decide) (by decide) (by decide)

/-! ### Claim C4 -/

/-- C4 counterexample: a line of 2001 spaces followed by `"ABC"` trims to the
likely heading `"ABC"`, lies in the repeated-lines set, matches no rule after the
repeated-line rule, and yet is not emitted unchanged: the raw-length rule
(rule 2, raw length over 2000) replaces it with `"[content removed]"`. -/
theorem c4_heading_exemption_counterexample :
    strip (List.replicate 2001 ' ' ++ "ABC".toList) ∈ ["ABC".toList] ∧
      is_likely_heading (strip (List.replicate 2001 ' ' ++ "ABC".toList)) = true ∧
      is_page_number_line (strip (List.replicate 2001 ' ' ++ "ABC".toList)) = false ∧
      is_contact_footer (strip (List.replicate 2001 ' ' ++ "ABC".toList)) = false ∧
      rule6Cond (strip (List.replicate 2001 ' ' ++ "ABC".toList)) = false ∧
      contains_pixel_sequence (strip (List.replicate 2001 ' ' ++ "ABC".toList)) = false ∧
      contains_hex_sequence (strip (List.replicate 2001 ' ' ++ "ABC".toList)) = false ∧
      is_calibration_data_line (strip (List.replicate 2001 ' ' ++ "ABC".toList)) = false ∧
      rule10Cond (List.replicate 2001 ' ' ++ "ABC".toList) = false ∧
      rule11Cond (List.replicate 2001 ' ' ++ "ABC".toList) = false ∧
      rule12Cond (List.replicate 2001 ' ' ++ "ABC".toList) = false ∧
      clean_line (List.replicate 2001 ' ' ++ "ABC".toList) ["ABC".toList] ≠
        List.replicate 2001 ' ' ++ "ABC".toList := by
  have hstrip : strip (List.replicate 2001 ' ' ++ "ABC".toList) = "ABC".toList := by
    unfold strip
    rw [dropWhile_replicate_append (by decide)]
    decide
  have hlen : (List.replicate 2001 ' ' ++ "ABC".toList).length = 2004 := by
    rw [List.length_append, List.length_replicate]
    rfl
  have hcount : (List.replicate 2001 ' ' ++ "ABC".toList).count ' ' = 2001 := by
    rw [List.count_append, List.count_replicate_self]
    have h0 : ("ABC".toList).count ' ' = 0 := by decide
    rw [h0]
  have hcont : (List.replicate 2001 ' ' ++ "ABC".toList).contains ' ' = true := by
    have hmem : (' ' : Char) ∈ List.replicate 2001 ' ' ++ "ABC".toList :=
      List.mem_append.mpr (Or.inl (List.mem_replicate.mpr ⟨by omega, rfl⟩))
    exact List.elem_iff.mpr hmem
  have hpy : pyWords (List.replicate 2001 ' ' ++ "ABC".toList) = [['A', 'B', 'C']] := by
    unfold pyWords
    rw [pyWordsAux_replicate_space]
    decide
  refine ⟨?_, ?_, ?_, ?_, ?_, ?_, ?_, ?_, ?_, ?_, ?_, ?_⟩
  · rw [hstrip]; exact List.mem_singleton.mpr rfl
  · rw [hstrip]; decide
  · rw [hstrip]; decide
  · rw [hstrip]; decide
  · rw [hstrip]; decide
  · rw [hstrip]; decide
  · rw [hstrip]; decide
  · rw [hstrip]; decide
  · simp only [rule10Cond, hlen, hcount]
    decide
  · simp only [rule11Cond, hlen, hcont]
    decide
  · simp only [rule12Cond, hlen, hpy]
    decide
  · have hcl : clean_line (List.replicate 2001 ' ' ++ "ABC".toList) ["ABC".toList] =
        "[content removed]".toList := by
      simp only [clean_line, hstrip, hlen]
      rw [if_neg (show ¬("ABC".toList : Str) = [] by decide),
        if_pos (show (2000 : Nat) < 2004 by omega)]
    rw [hcl]
    intro h
    have hl := congrArg List.length h
    rw [hlen] at hl
    have h17 : ("[content removed]".toList).length = 17 := rfl
    rw [h17] at hl
    omega

/-- C4 amended: provided additionally the raw line length is at most 2000, a
repeated likely-heading line matching no later removal rule is emitted unchanged
by `clean_line`, while a repeated non-heading, non-blank line of raw length at
most 2000 is dropped to the empty string, untagged. -/
theorem c4_amended_heading_exemption :
    (∀ (line : Str) (repeated : List Str),
        strip line ∈ repeated →
        is_likely_heading (strip line) = true →
        line.length ≤ 2000 →
        is_page_number_line (strip line) = false →
        is_contact_footer (strip line) = false →
        rule6Cond (strip line) = false →
        contains_pixel_sequence (strip line) = false →
        contains_hex_sequence (strip line) = false →
        rule10Cond line = false →
        rule11Cond line = false →
        rule12Cond line = false →
        clean_line line repeated = line) ∧
      (∀ (line : Str) (repeated : List Str),
        strip line ∈ repeated →
        is_likely_heading (strip line) = false →
        strip line ≠ [] →
        line.length ≤ 2000 →
        clean_line line repeated = []) := by
  constructor
  · intro line repeated hmem hhead hlen hpage hfoot hr6 hpix hhex hr10 hr11 hr12
    have hne : strip line ≠ [] := by
      intro h0
      rw [h0] at hhead
      exact absurd hhead (by decide)
    have hrep' : (decide (strip line ∈ repeated) && !is_likely_heading (strip line)) = false := by
      simp [hhead]
    have hcal : is_calibration_data_line (strip line) = false := by
      simp only [is_calibration_data_line, hpix, Bool.and_false]
    simp only [clean_line, if_neg hne, if_neg (show ¬2000 < line.length by omega), hrep',
      hpage, hfoot, hr6, hpix, hhex, hcal, hr10, hr11, hr12, Bool.false_eq_true, if_false]
  · intro line repeated hmem hhead hne hlen
    have hrep' : (decide (strip line ∈ repeated) && !is_likely_heading (strip line)) = true := by
      simp [hmem, hhead]
    simp only [clean_line, if_neg hne, if_neg (show ¬2000 < line.length by omega), hrep',
      if_true]

/-- Witness for `c4_amended_heading_exemption` at concrete inputs: the repeated
heading `"# Title"` is kept, the repeated non-heading `"some footer"` is dropped. -/
theorem c4_amended_witness :
    clean_line "# Title".toList ["# Title".toList] = "# Title".toList ∧
      clean_line "some footer".toList ["some footer".toList] = [] :=
  ⟨c4_amended_heading_exemption.1 "# Title".toList ["# Title".toList] (by decide) (by decide)
      (by decide) (by decide) (by decide) (by decide) (by decide) (by decide) (by decide)
      (by decide) (by decide),
    c4_amended_heading_exemption.2 "some footer".toList ["some footer".toList] (by decide)
      (by decide) (by decide) (by decide)⟩

/-! ### Claim C5 -/

/-- C5 counterexample: on `"A\n\n\n\n\nB"` (four consecutive blank lines between
two content lines) the final output of `clean_text` is `"A\n\nB"`, which has a
single blank line (two newlines), not the two blank lines (three newlines) the
claim states. -/
theorem c5_four_blanks_counterexample :
    clean_text "A\n\n\n\n\nB".toList = "A\n\nB".toList ∧
      "A\n\nB".toList ≠ "A\n\n\nB".toList := by
  decide

/-- C5 amended: four consecutive blank lines separating two content lines are
reduced by `clean_text` to exactly one blank line (two newlines) — the collapse
pass merges blank runs to a single empty line before the run-of-4+-newlines
normalisation ever sees them — while three consecutive `"[content removed]"`
lines are collapsed by the collapse pass to exactly one such line. -/
theorem c5_amended_collapsing :
    clean_text "A\n\n\n\n\nB".toList = "A\n\nB".toList ∧
      collapse_removed_lines
          "[content removed]\n[content removed]\n[content removed]".toList =
        "[content removed]".toList := by
  decide

/-! ### Claim C6 -/

/-- C6 counterexample: the marker `"-- Page Break --"` — two dashes on each side
and no leading `'#'` — is not removed by `remove_page_breaks`. -/
theorem c6_two_dash_marker_not_removed :
    remove_page_breaks "-- Page Break --".toList = "-- Page Break --".toList ∧
      "-- Page Break --".toList ≠ ([] : Str) := by
  decide

theorem pbAfterDashes_marker (d n m : Nat) (hd : 1 ≤ d) (hn : d ≤ n) (hm : d ≤ m) :
    pbAfterDashes d (List.replicate n '-' ++ ' ' :: 'P' :: 'a' :: 'g' :: 'e' :: ' ' ::
      'B' :: 'r' :: 'e' :: 'a' :: 'k' :: ' ' :: List.replicate m '-') = true := by
  obtain ⟨j, rfl⟩ : ∃ j, m = j + 1 := ⟨m - 1, by omega⟩
  have h1 : (List.replicate n '-' ++ ' ' :: 'P' :: 'a' :: 'g' :: 'e' :: ' ' ::
      'B' :: 'r' :: 'e' :: 'a' :: 'k' :: ' ' :: List.replicate (j + 1) '-').takeWhile
        (fun c => c == '-') = List.replicate n '-' := by
    rw [takeWhile_replicate_append (by decide), List.takeWhile_cons_of_neg (by decide),
      List.append_nil]
  have h2 : (List.replicate n '-' ++ ' ' :: 'P' :: 'a' :: 'g' :: 'e' :: ' ' ::
      'B' :: 'r' :: 'e' :: 'a' :: 'k' :: ' ' :: List.replicate (j + 1) '-').dropWhile
        (fun c => c == '-') = ' ' :: 'P' :: 'a' :: 'g' :: 'e' :: ' ' ::
      'B' :: 'r' :: 'e' :: 'a' :: 'k' :: ' ' :: List.replicate (j + 1) '-' := by
    rw [dropWhile_replicate_append (by decide), List.dropWhile_cons_of_neg (by decide)]
  have h3 : (List.replicate (j + 1) '-').takeWhile (fun c => c == '-') =
      List.replicate (j + 1) '-' := by
    have h : List.takeWhile (fun c => c == '-') (List.replicate (j + 1) '-' ++ ([] : Str)) =
        List.replicate (j + 1) '-' ++ List.takeWhile (fun c => c == '-') ([] : Str) :=
      takeWhile_replicate_append (by decide) (j + 1) []
    simp only [List.append_nil, List.takeWhile_nil] at h
    exact h
  have h4 : (List.replicate (j + 1) '-').dropWhile (fun c => c == '-') = [] := by
    have h : List.dropWhile (fun c => c == '-') (List.replicate (j + 1) '-' ++ ([] : Str)) =
        List.dropWhile (fun c => c == '-') ([] : Str) :=
      dropWhile_replicate_append (by decide) (j + 1) []
    simp only [List.append_nil, List.dropWhile_nil] at h
    exact h
  have h5 : (List.replicate (j + 1) '-').dropWhile isWS = List.replicate (j + 1) '-' := by
    rw [List.replicate_succ, List.dropWhile_cons_of_neg (by decide)]
  simp only [pbAfterDashes, h1, h2, List.length_replicate, if_neg (show ¬n < d by omega),
    List.dropWhile_cons_of_pos (show isWS ' ' = true by decide),
    List.dropWhile_cons_of_neg (show ¬isWS 'P' = true by decide)]
  simp only [show "Page".toList = ['P', 'a', 'g', 'e'] from rfl,
    show "Break".toList = ['B', 'r', 'e', 'a', 'k'] from rfl,
    List.isPrefixOf_cons₂_self, List.isPrefixOf_nil_left, if_true,
    List.drop_succ_cons, List.drop_zero,
    List.dropWhile_cons_of_pos (show isWS ' ' = true by decide),
    List.dropWhile_cons_of_neg (show ¬isWS 'B' = true by decide), h5, h3, h4,
    List.length_replicate, if_neg (show ¬j + 1 < d by omega)]
  simp

/-- C6 amended: `remove_page_breaks` removes, as whole-line matches, every marker
with a mandatory heading marker (one or two `'#'` characters) followed by 2+
dashes, `"Page Break"`, and 2+ dashes, and every bare marker with 3+ dashes on
each side; the `'#'`-less two-dash variant is not covered by either pattern. -/
theorem c6_amended_page_break_markers :
    (∀ h n m : Nat, h = 1 ∨ h = 2 → 2 ≤ n → 2 ≤ m →
      pbLine (List.replicate h '#' ++ ' ' :: (List.replicate n '-' ++ ' ' :: 'P' :: 'a' ::
        'g' :: 'e' :: ' ' :: 'B' :: 'r' :: 'e' :: 'a' :: 'k' :: ' ' ::
        List.replicate m '-')) = []) ∧
      (∀ n m : Nat, 3 ≤ n → 3 ≤ m →
        pbLine (List.replicate n '-' ++ ' ' :: 'P' :: 'a' :: 'g' :: 'e' :: ' ' :: 'B' ::
          'r' :: 'e' :: 'a' :: 'k' :: ' ' :: List.replicate m '-') = []) := by
  constructor
  · intro h n m hh hn hm
    obtain ⟨k, rfl⟩ : ∃ k, n = k + 2 := ⟨n - 2, by omega⟩
    have hcore := pbAfterDashes_marker 2 (k + 2) m (by omega) (by omega) hm
    rcases hh with rfl | rfl
    · have hred : pbMatch1 (List.replicate 1 '#' ++ ' ' :: (List.replicate (k + 2) '-' ++
          ' ' :: 'P' :: 'a' :: 'g' :: 'e' :: ' ' :: 'B' :: 'r' :: 'e' :: 'a' :: 'k' :: ' ' ::
          List.replicate m '-')) =
          pbAfterDashes 2 (List.replicate (k + 2) '-' ++ ' ' :: 'P' :: 'a' :: 'g' :: 'e' ::
            ' ' :: 'B' :: 'r' :: 'e' :: 'a' :: 'k' :: ' ' :: List.replicate m '-') := rfl
      rw [pbLine, if_pos (hred.trans hcore)]
    · have hred : pbMatch1 (List.replicate 2 '#' ++ ' ' :: (List.replicate (k + 2) '-' ++
          ' ' :: 'P' :: 'a' :: 'g' :: 'e' :: ' ' :: 'B' :: 'r' :: 'e' :: 'a' :: 'k' :: ' ' ::
          List.replicate m '-')) =
          pbAfterDashes 2 (List.replicate (k + 2) '-' ++ ' ' :: 'P' :: 'a' :: 'g' :: 'e' ::
            ' ' :: 'B' :: 'r' :: 'e' :: 'a' :: 'k' :: ' ' :: List.replicate m '-') := rfl
      rw [pbLine, if_pos (hred.trans hcore)]
  · intro n m hn hm
    obtain ⟨k, rfl⟩ : ∃ k, n = k + 3 := ⟨n - 3, by omega⟩
    have hcore := pbAfterDashes_marker 3 (k + 3) m (by omega) (by omega) hm
    have hm1 : pbMatch1 (List.replicate (k + 3) '-' ++ ' ' :: 'P' :: 'a' :: 'g' :: 'e' ::
        ' ' :: 'B' :: 'r' :: 'e' :: 'a' :: 'k' :: ' ' :: List.replicate m '-') = false := rfl
    have hm2 : pbMatch2 (List.replicate (k + 3) '-' ++ ' ' :: 'P' :: 'a' :: 'g' :: 'e' ::
        ' ' :: 'B' :: 'r' :: 'e' :: 'a' :: 'k' :: ' ' :: List.replicate m '-') = true := by
      rw [pbMatch2]
      exact hcore
    rw [pbLine, if_neg (by simp [hm1]), if_pos hm2]

/-- Witness for `c6_amended_page_break_markers` at concrete inputs. -/
theorem c6_amended_witness :
    pbLine "## --- Page Break ---".toList = [] ∧
      pbLine "--- Page Break ---".toList = [] := by
  constructor
  · have h := c6_amended_page_break_markers.1 2 3 3 (Or.inr rfl) (by omega) (by omega)
    have he : "## --- Page Break ---".toList =
        List.replicate 2 '#' ++ ' ' :: (List.replicate 3 '-' ++ ' ' :: 'P' :: 'a' :: 'g' ::
          'e' :: ' ' :: 'B' :: 'r' :: 'e' :: 'a' :: 'k' :: ' ' ::
          List.replicate 3 '-') := by decide
    rw [he]
    exact h
  · have h := c6_amended_page_break_markers.2 3 3 (by omega) (by omega)
    have he : "--- Page Break ---".toList =
        List.replicate 3 '-' ++ ' ' :: 'P' :: 'a' :: 'g' :: 'e' :: ' ' :: 'B' :: 'r' ::
          'e' :: 'a' :: 'k' :: ' ' :: List.replicate 3 '-' := by decide
    rw [he]
    exact h

/-! ### Claims C7 and C10: the numeric-garbage run counter -/

theorem is_numeric_garbage_strip (l : Str) :
    is_numeric_garbage (strip l) = is_numeric_garbage l := by
  unfold is_numeric_garbage
  rw [strip_strip]

theorem countEmits_cons_true (bs : List Bool) (r : Nat) :
    countEmits (true :: bs) r = (if r + 1 = 3 then 1 else 0) + countEmits bs (r + 1) := by
  simp [countEmits]

theorem countEmits_cons_false (bs : List Bool) (r : Nat) :
    countEmits (false :: bs) r = countEmits bs 0 := by
  simp [countEmits]

theorem countEmits_trueRunsAux (bs : List Bool) :
    ∀ r, countEmits bs r + (if 3 ≤ r then 1 else 0) =
      ((trueRunsAux bs r).filter (fun k => decide (3 ≤ k))).length := by
  induction bs with
  | nil =>
    intro r
    by_cases hr : r = 0
    · subst hr
      simp [countEmits, trueRunsAux]
    · rw [show countEmits [] r = 0 from rfl,
        show trueRunsAux [] r = if r = 0 then [] else [r] from rfl, if_neg hr,
        List.filter_cons]
      by_cases h3 : 3 ≤ r <;> simp [h3]
  | cons b bs ih =>
    intro r
    cases b
    · rw [countEmits_cons_false,
        show trueRunsAux (false :: bs) r =
          if r = 0 then trueRunsAux bs 0 else r :: trueRunsAux bs 0 from by
            simp [trueRunsAux]]
      have hbs := ih 0
      rw [show (if 3 ≤ 0 then 1 else 0) = 0 from rfl, Nat.add_zero] at hbs
      by_cases hr : r = 0
      · subst hr
        rw [if_pos rfl]
        simpa using hbs
      · rw [if_neg hr, List.filter_cons]
        by_cases h3 : 3 ≤ r <;> simp [h3] <;> omega
    · rw [countEmits_cons_true,
        show trueRunsAux (true :: bs) r = trueRunsAux bs (r + 1) from by simp [trueRunsAux]]
      have hbs := ih (r + 1)
      split_ifs at hbs ⊢ <;> omega

theorem countEmits_runsGE3 (flags : List Bool) : countEmits flags 0 = runsGE3 flags := by
  have h := countEmits_trueRunsAux flags 0
  rw [if_neg (by omega)] at h
  rw [runsGE3]
  omega

theorem secondPass_countP (seen : List (Str × Nat)) :
    ∀ (lines : List Str) (pe : Bool) (run : Nat),
      (∀ l ∈ lines, l ≠ numericPlaceholder) →
      (secondPass seen lines pe run).countP (fun l => l == numericPlaceholder) =
        countEmits ((lines.filter (fun l => !skipET seen l)).map
          (fun l => is_numeric_garbage l)) run := by
  intro lines
  induction lines with
  | nil => intro pe run _; rfl
  | cons line rest ih =>
    intro pe run hph
    have hph' : ∀ l ∈ rest, l ≠ numericPlaceholder :=
      fun l hl => hph l (List.mem_cons_of_mem _ hl)
    have hphl : line ≠ numericPlaceholder := hph line (List.mem_cons_self _ _)
    by_cases h1 : strip line ≠ [] ∧ 3 ≤ countOf seen (strip line)
    · have hskip : skipET seen line = true := by
        simp [skipET, h1.1, h1.2]
      rw [show secondPass seen (line :: rest) pe run = secondPass seen rest pe run from by
        simp only [secondPass]
        rw [if_pos h1]]
      rw [List.filter_cons, if_neg (show ¬(!skipET seen line) = true by rw [hskip]; simp)]
      exact ih pe run hph'
    · by_cases h2 : et_is_page_number (strip line) = true
      · have hskip : skipET seen line = true := by
          simp [skipET, h2]
        rw [show secondPass seen (line :: rest) pe run = secondPass seen rest pe run from by
          simp only [secondPass]
          rw [if_neg h1, if_pos h2]]
        rw [List.filter_cons, if_neg (show ¬(!skipET seen line) = true by rw [hskip]; simp)]
        exact ih pe run hph'
      · have h2' : et_is_page_number (strip line) = false := by simpa using h2
        have hskip : skipET seen line = false := by
          simp only [skipET, h2', Bool.or_false]
          by_cases ha : strip line ≠ []
          · have hb : ¬3 ≤ countOf seen (strip line) := fun hb => h1 ⟨ha, hb⟩
            simp [hb]
          · simp [ha]
        by_cases h3 : is_numeric_garbage (strip line) = true
        · have hg : is_numeric_garbage line = true := by
            rw [← is_numeric_garbage_strip]
            exact h3
          rw [show secondPass seen (line :: rest) pe run =
              (if run + 1 = 3 then [numericPlaceholder] else []) ++
                secondPass seen rest pe (run + 1) from by
            simp only [secondPass]
            rw [if_neg h1, if_neg h2, if_pos h3]]
          rw [List.countP_append, List.filter_cons, if_pos (show (!skipET seen line) = true by rw [hskip]; rfl),
            List.map_cons, hg, countEmits_cons_true, ih pe (run + 1) hph']
          congr 1
          by_cases hr : run + 1 = 3
          · rw [if_pos hr, if_pos hr]
            simp
          · rw [if_neg hr, if_neg hr]
            rfl
        · have h3' : is_numeric_garbage (strip line) = false := by simpa using h3
          have hg : is_numeric_garbage line = false := by
            rw [← is_numeric_garbage_strip]
            exact h3'
          by_cases h4 : strip line = []
          · rw [show secondPass seen (line :: rest) pe run =
                (if pe then [] else [([] : Str)]) ++ secondPass seen rest true 0 from by
              simp only [secondPass]
              rw [if_neg h1, if_neg h2, if_neg (by simp [h3']), if_pos h4]]
            rw [List.countP_append, List.filter_cons, if_pos (show (!skipET seen line) = true by rw [hskip]; rfl),
              List.map_cons, hg, countEmits_cons_false, ih true 0 hph']
            have hz : (if pe then ([] : List Str) else [([] : Str)]).countP
                (fun l => l == numericPlaceholder) = 0 := by
              have hne : (([] : Str) == numericPlaceholder) = false := by decide
              by_cases hpe : pe <;> simp [hpe, hne]
            rw [hz, Nat.zero_add]
          · rw [show secondPass seen (line :: rest) pe run =
                line :: secondPass seen rest false 0 from by
              simp only [secondPass]
              rw [if_neg h1, if_neg h2, if_neg (by simp [h3']), if_neg h4]]
            rw [List.filter_cons, if_pos (show (!skipET seen line) = true by rw [hskip]; rfl), List.map_cons, hg,
              countEmits_cons_false]
            have hne : (line == numericPlaceholder) = false := by simpa using hphl
            rw [List.countP_cons, hne, ih false 0 hph']
            simp

theorem secondPass_no_garbage (seen : List (Str × Nat)) :
    ∀ (lines : List Str) (pe : Bool) (run : Nat),
      ∀ l ∈ secondPass seen lines pe run, is_numeric_garbage l = false := by
  intro lines
  induction lines with
  | nil =>
    intro pe run l hl
    simp [secondPass] at hl
  | cons line rest ih =>
    intro pe run l hl
    by_cases h1 : strip line ≠ [] ∧ 3 ≤ countOf seen (strip line)
    · rw [show secondPass seen (line :: rest) pe run = secondPass seen rest pe run from by
        simp only [secondPass]
        rw [if_pos h1]] at hl
      exact ih pe run l hl
    · by_cases h2 : et_is_page_number (strip line) = true
      · rw [show secondPass seen (line :: rest) pe run = secondPass seen rest pe run from by
          simp only [secondPass]
          rw [if_neg h1, if_pos h2]] at hl
        exact ih pe run l hl
      · by_cases h3 : is_numeric_garbage (strip line) = true
        · rw [show secondPass seen (line :: rest) pe run =
              (if run + 1 = 3 then [numericPlaceholder] else []) ++
                secondPass seen rest pe (run + 1) from by
            simp only [secondPass]
            rw [if_neg h1, if_neg h2, if_pos h3]] at hl
          rcases List.mem_append.mp hl with hmem | hmem
          · by_cases hr : run + 1 = 3
            · rw [if_pos hr] at hmem
              rw [List.mem_singleton.mp hmem]
              decide
            · rw [if_neg hr] at hmem
              simp at hmem
          · exact ih pe (run + 1) l hmem
        · have h3' : is_numeric_garbage (strip line) = false := by simpa using h3
          by_cases h4 : strip line = []
          · rw [show secondPass seen (line :: rest) pe run =
                (if pe then [] else [([] : Str)]) ++ secondPass seen rest true 0 from by
              simp only [secondPass]
              rw [if_neg h1, if_neg h2, if_neg (by simp [h3']), if_pos h4]] at hl
            rcases List.mem_append.mp hl with hmem | hmem
            · by_cases hpe : pe
              · rw [if_pos hpe] at hmem
                simp at hmem
              · rw [if_neg hpe] at hmem
                rw [List.mem_singleton.mp hmem]
                decide
            · exact ih true 0 l hmem
          · rw [show secondPass seen (line :: rest) pe run =
                line :: secondPass seen rest false 0 from by
              simp only [secondPass]
              rw [if_neg h1, if_neg h2, if_neg (by simp [h3']), if_neg h4]] at hl
            rcases List.mem_cons.mp hl with rfl | hmem
            · rw [← is_numeric_garbage_strip]
              exact h3'
            · exact ih false 0 l hmem

/-- C7 counterexample: `"5\n5\n5"` is a maximal run of three consecutive
numeric-garbage lines, yet `clean_extracted_text` emits no placeholder at all —
the repetition skip consumes the lines before the numeric-run counter sees them. -/
theorem c7_numeric_run_counterexample :
    ((splitNl "5\n5\n5".toList).all (fun l => is_numeric_garbage l)) = true ∧
      (splitNl "5\n5\n5".toList).length = 3 ∧
      clean_extracted_text "5\n5\n5".toList = [] ∧
      (splitNl (clean_extracted_text "5\n5\n5".toList)).countP
        (fun l => l == numericPlaceholder) = 0 := by
  decide

/-- C7 amended: the numeric-garbage characterisation is as claimed, but runs are
counted after removing the lines skipped by the repetition and page-number rules
(which do not touch the counter, see C10): the second pass of
`clean_extracted_text` emits exactly one `"[numeric data removed]"` placeholder
per maximal run, in that skip-filtered subsequence, of at least 3 consecutive
numeric-garbage lines, none for shorter runs, and drops every garbage line. -/
theorem c7_amended_numeric_run_placeholders (seen : List (Str × Nat)) (lines : List Str)
    (hph : ∀ l ∈ lines, l ≠ numericPlaceholder) :
    (secondPass seen lines false 0).countP (fun l => l == numericPlaceholder) =
      runsGE3 ((lines.filter (fun l => !skipET seen l)).map
        (fun l => is_numeric_garbage l)) ∧
      ∀ l ∈ secondPass seen lines false 0, is_numeric_garbage l = false :=
  ⟨(secondPass_countP seen lines false 0 hph).trans (countEmits_runsGE3 _),
    secondPass_no_garbage seen lines false 0⟩

/-- Witness for `c7_amended_numeric_run_placeholders`: three garbage lines
interrupted by a page-number line yield exactly one placeholder. -/
theorem c7_amended_witness :
    (secondPass [] ["1".toList, "2".toList, "Page 1 of 2".toList, "3".toList, "x".toList]
        false 0).countP (fun l => l == numericPlaceholder) =
      runsGE3 ((["1".toList, "2".toList, "Page 1 of 2".toList, "3".toList,
        "x".toList].filter (fun l => !skipET [] l)).map (fun l => is_numeric_garbage l)) ∧
      ∀ l ∈ secondPass [] ["1".toList, "2".toList, "Page 1 of 2".toList, "3".toList,
        "x".toList] false 0, is_numeric_garbage l = false :=
  c7_amended_numeric_run_placeholders []
    ["1".toList, "2".toList, "Page 1 of 2".toList, "3".toList, "x".toList] (by decide)

theorem secondPass_skip_prefix (seen : List (Str × Nat)) :
    ∀ (ss rest : List Str) (pe : Bool) (run : Nat),
      (∀ l ∈ ss, skipET seen l = true) →
      secondPass seen (ss ++ rest) pe run = secondPass seen rest pe run := by
  intro ss
  induction ss with
  | nil => intro rest pe run _; rfl
  | cons s ss' ih =>
    intro rest pe run h
    have hs : skipET seen s = true := h s (List.mem_cons_self _ _)
    have h' : ∀ l ∈ ss', skipET seen l = true := fun l hl => h l (List.mem_cons_of_mem _ hl)
    rw [List.cons_append]
    by_cases h1 : strip s ≠ [] ∧ 3 ≤ countOf seen (strip s)
    · rw [show secondPass seen (s :: (ss' ++ rest)) pe run =
          secondPass seen (ss' ++ rest) pe run from by
        simp only [secondPass]
        rw [if_pos h1]]
      exact ih rest pe run h'
    · have h2 : et_is_page_number (strip s) = true := by
        simp only [skipET, Bool.or_eq_true, Bool.and_eq_true, decide_eq_true_eq] at hs
        rcases hs with ⟨ha, hb⟩ | hp
        · exact absurd ⟨ha, hb⟩ h1
        · exact hp
      rw [show secondPass seen (s :: (ss' ++ rest)) pe run =
          secondPass seen (ss' ++ rest) pe run from by
        simp only [secondPass]
        rw [if_neg h1, if_pos h2]]
      exact ih rest pe run h'

/-- C10: lines skipped by the repetition or page-number rules are complete
no-ops of the second pass of `clean_extracted_text` — in particular they do not
reset the consecutive-numeric-garbage run counter: deleting any block of such
skipped lines anywhere in the input leaves the pass's output (from any starting
state) unchanged. -/
theorem c10_skipped_lines_do_not_reset_run (seen : List (Str × Nat))
    (xs ss ys : List Str) (pe : Bool) (run : Nat)
    (hss : ∀ l ∈ ss, skipET seen l = true) :
    secondPass seen (xs ++ ss ++ ys) pe run = secondPass seen (xs ++ ys) pe run := by
  induction xs generalizing pe run with
  | nil =>
    simp only [List.nil_append]
    exact secondPass_skip_prefix seen ss ys pe run hss
  | cons x xs' ih =>
    have hl : (x :: xs') ++ ss ++ ys = x :: (xs' ++ ss ++ ys) := by simp
    have hr : (x :: xs') ++ ys = x :: (xs' ++ ys) := by simp
    rw [hl, hr]
    by_cases h1 : strip x ≠ [] ∧ 3 ≤ countOf seen (strip x)
    · rw [show secondPass seen (x :: (xs' ++ ss ++ ys)) pe run =
          secondPass seen (xs' ++ ss ++ ys) pe run from by
        simp only [secondPass]
        rw [if_pos h1],
        show secondPass seen (x :: (xs' ++ ys)) pe run =
          secondPass seen (xs' ++ ys) pe run from by
        simp only [secondPass]
        rw [if_pos h1]]
      exact ih pe run
    · by_cases h2 : et_is_page_number (strip x) = true
      · rw [show secondPass seen (x :: (xs' ++ ss ++ ys)) pe run =
            secondPass seen (xs' ++ ss ++ ys) pe run from by
          simp only [secondPass]
          rw [if_neg h1, if_pos h2],
          show secondPass seen (x :: (xs' ++ ys)) pe run =
            secondPass seen (xs' ++ ys) pe run from by
          simp only [secondPass]
          rw [if_neg h1, if_pos h2]]
        exact ih pe run
      · by_cases h3 : is_numeric_garbage (strip x) = true
        · rw [show secondPass seen (x :: (xs' ++ ss ++ ys)) pe run =
              (if run + 1 = 3 then [numericPlaceholder] else []) ++
                secondPass seen (xs' ++ ss ++ ys) pe (run + 1) from by
            simp only [secondPass]
            rw [if_neg h1, if_neg h2, if_pos h3],
            show secondPass seen (x :: (xs' ++ ys)) pe run =
              (if run + 1 = 3 then [numericPlaceholder] else []) ++
                secondPass seen (xs' ++ ys) pe (run + 1) from by
            simp only [secondPass]
            rw [if_neg h1, if_neg h2, if_pos h3]]
          rw [ih pe (run + 1)]
        · by_cases h4 : strip x = []
          · rw [show secondPass seen (x :: (xs' ++ ss ++ ys)) pe run =
                (if pe then [] else [([] : Str)]) ++
                  secondPass seen (xs' ++ ss ++ ys) true 0 from by
              simp only [secondPass]
              rw [if_neg h1, if_neg h2, if_neg (by simp [h3]), if_pos h4],
              show secondPass seen (x :: (xs' ++ ys)) pe run =
                (if pe then [] else [([] : Str)]) ++
                  secondPass seen (xs' ++ ys) true 0 from by
              simp only [secondPass]
              rw [if_neg h1, if_neg h2, if_neg (by simp [h3]), if_pos h4]]
            rw [ih true 0]
          · rw [show secondPass seen (x :: (xs' ++ ss ++ ys)) pe run =
                x :: secondPass seen (xs' ++ ss ++ ys) false 0 from by
              simp only [secondPass]
              rw [if_neg h1, if_neg h2, if_neg (by simp [h3]), if_neg h4],
              show secondPass seen (x :: (xs' ++ ys)) pe run =
                x :: secondPass seen (xs' ++ ys) false 0 from by
              simp only [secondPass]
              rw [if_neg h1, if_neg h2, if_neg (by simp [h3]), if_neg h4]]
            rw [ih false 0]

/-- Witness for `c10_skipped_lines_do_not_reset_run`: a page-number line between
two numeric lines is a no-op of the pass. -/
theorem c10_witness :
    secondPass [] (["1".toList, "2".toList] ++ ["Page 1 of 2".toList] ++ ["3".toList])
        false 0 =
      secondPass [] (["1".toList, "2".toList] ++ ["3".toList]) false 0 :=
  c10_skipped_lines_do_not_reset_run [] ["1".toList, "2".toList] ["Page 1 of 2".toList]
    ["3".toList] false 0 (by decide)

/-! ### Claim C9: the output of `clean_text` never has three consecutive newlines -/

theorem startsWithTriple_cons_ne (c : Char) (s : Str) (hc : c ≠ '\n') :
    startsWithTriple (c :: s) = false := by
  have hcb : (c == '\n') = false := beq_eq_false_iff_ne.mpr hc
  cases s with
  | nil => rfl
  | cons c2 r =>
    cases r with
    | nil => rfl
    | cons c3 r' => simp [startsWithTriple, hcb]

theorem hasTriple_cons (c : Char) (rest : Str) :
    hasTripleNewline (c :: rest) =
      (startsWithTriple (c :: rest) || hasTripleNewline rest) := rfl

theorem hasTriple_append_left (a t : Str) (ha : ∀ c ∈ a, c ≠ '\n') :
    hasTripleNewline (a ++ t) = hasTripleNewline t := by
  induction a with
  | nil => rfl
  | cons c a' ih =>
    have hc : c ≠ '\n' := ha c (List.mem_cons_self _ _)
    have ha' : ∀ x ∈ a', x ≠ '\n' := fun x hx => ha x (List.mem_cons_of_mem _ hx)
    rw [List.cons_append, hasTriple_cons, startsWithTriple_cons_ne c _ hc, Bool.false_or,
      ih ha']

theorem hasTriple_of_no_nl (a : Str) (ha : ∀ c ∈ a, c ≠ '\n') :
    hasTripleNewline a = false := by
  have h := hasTriple_append_left a [] ha
  rw [List.append_nil] at h
  exact h

theorem hasTriple_nl_cons (s : Str) (h : ∀ c ∈ s.head?, c ≠ '\n') :
    hasTripleNewline ('\n' :: s) = hasTripleNewline s := by
  cases s with
  | nil => rfl
  | cons c t =>
    have hc : c ≠ '\n' := h c rfl
    have hcb : (c == '\n') = false := beq_eq_false_iff_ne.mpr hc
    rw [hasTriple_cons]
    have hs : startsWithTriple ('\n' :: c :: t) = false := by
      cases t <;> simp [startsWithTriple, hcb]
    rw [hs, Bool.false_or]

theorem hasTriple_two_nl_cons (c : Char) (t : Str) (hc : c ≠ '\n') :
    hasTripleNewline ('\n' :: '\n' :: c :: t) = hasTripleNewline (c :: t) := by
  have hcb : (c == '\n') = false := beq_eq_false_iff_ne.mpr hc
  rw [hasTriple_cons]
  have hs : startsWithTriple ('\n' :: '\n' :: c :: t) = false := by
    simp [startsWithTriple, hcb]
  rw [hs, Bool.false_or]
  exact hasTriple_nl_cons (c :: t) (fun x hx => by
    obtain rfl : c = x := by simpa using hx
    exact hc)

theorem hasTriple_of_mid (u v : Str) :
    hasTripleNewline (u ++ '\n' :: '\n' :: '\n' :: v) = true := by
  induction u with
  | nil =>
    rw [List.nil_append, hasTriple_cons]
    have : startsWithTriple ('\n' :: '\n' :: '\n' :: v) = true := by
      simp [startsWithTriple]
    rw [this, Bool.true_or]
  | cons c u' ih =>
    rw [List.cons_append, hasTriple_cons, ih, Bool.or_true]

theorem hasTriple_eq_true_iff (s : Str) :
    hasTripleNewline s = true ↔ ['\n', '\n', '\n'] <:+: s := by
  constructor
  · induction s with
    | nil => intro h; simp [hasTripleNewline] at h
    | cons c rest ih =>
      intro h
      rw [hasTriple_cons] at h
      rcases Bool.or_eq_true_iff.mp h with hs | ht
      · match rest, hs with
        | c2 :: c3 :: r3, hs =>
          simp only [startsWithTriple, Bool.and_eq_true, beq_iff_eq] at hs
          obtain ⟨⟨rfl, rfl⟩, rfl⟩ := hs
          exact (List.prefix_append ['\n', '\n', '\n'] r3).isInfix
      · exact List.infix_cons (ih ht)
  · rintro ⟨u, v, huv⟩
    rw [← huv]
    have h : u ++ ['\n', '\n', '\n'] ++ v = u ++ '\n' :: '\n' :: '\n' :: v := by simp
    rw [h]
    exact hasTriple_of_mid u v

theorem hasTriple_false_of_infix {s' s : Str} (hsub : s' <:+: s)
    (h : hasTripleNewline s = false) : hasTripleNewline s' = false := by
  by_contra hc
  have h' : hasTripleNewline s' = true := by simpa using hc
  have h2 : ['\n', '\n', '\n'] <:+: s := ((hasTriple_eq_true_iff s').mp h').trans hsub
  rw [(hasTriple_eq_true_iff s).mpr h2] at h
  exact absurd h (by simp)

theorem strip_infix_self (s : Str) : strip s <:+: s := by
  have hu : s.dropWhile isWS <:+ s := List.dropWhile_suffix isWS
  obtain ⟨t, ht⟩ :=
    (List.dropWhile_suffix isWS :
      (s.dropWhile isWS).reverse.dropWhile isWS <:+ (s.dropWhile isWS).reverse)
  have hp : ((s.dropWhile isWS).reverse.dropWhile isWS).reverse <+: s.dropWhile isWS :=
    ⟨t.reverse, by rw [← List.reverse_append, ht, List.reverse_reverse]⟩
  exact hp.isInfix.trans hu.isInfix

theorem noTwoAdjacentEmpty_cons_of_ne (a : Str) (l : List Str) (ha : a ≠ []) :
    noTwoAdjacentEmpty (a :: l) = noTwoAdjacentEmpty l := by
  cases l with
  | nil => rfl
  | cons b r =>
    have h : a.isEmpty = false := by
      cases a with
      | nil => exact absurd rfl ha
      | cons x xs => rfl
    simp [noTwoAdjacentEmpty, h]

theorem isRemovedMarker_ne_nil (l : Str) (h : isRemovedMarker l = true) : l ≠ [] := by
  intro h0
  rw [h0] at h
  exact absurd h (by decide)

theorem strip_ne_nil_ne_nil (l : Str) (h : strip l ≠ []) : l ≠ [] := by
  intro h0
  rw [h0] at h
  exact h rfl

theorem collapseAux_mem :
    ∀ (lines : List Str) (pr pe : Bool) (l : Str), l ∈ collapseAux lines pr pe →
      l = [] ∨ l ∈ lines := by
  intro lines
  induction lines with
  | nil =>
    intro pr pe l hl
    simp [collapseAux] at hl
  | cons x rest ih =>
    intro pr pe l hl
    rw [show collapseAux (x :: rest) pr pe =
        (if isRemovedMarker x then (if pr then [] else [x]) ++ collapseAux rest true false
         else if strip x = [] then
           (if pr || pe then [] else [([] : Str)]) ++ collapseAux rest false true
         else x :: collapseAux rest false false) from rfl] at hl
    by_cases h1 : isRemovedMarker x = true
    · rw [if_pos h1] at hl
      rcases List.mem_append.mp hl with hm | hm
      · by_cases hpr : pr
        · rw [if_pos hpr] at hm
          simp at hm
        · rw [if_neg hpr] at hm
          exact Or.inr (List.mem_singleton.mp hm ▸ List.mem_cons_self _ _)
      · rcases ih true false l hm with h | h
        · exact Or.inl h
        · exact Or.inr (List.mem_cons_of_mem _ h)
    · rw [if_neg h1] at hl
      by_cases h2 : strip x = []
      · rw [if_pos h2] at hl
        rcases List.mem_append.mp hl with hm | hm
        · by_cases hb : (pr || pe) = true
          · rw [if_pos hb] at hm
            simp at hm
          · rw [if_neg hb] at hm
            exact Or.inl (List.mem_singleton.mp hm)
        · rcases ih false true l hm with h | h
          · exact Or.inl h
          · exact Or.inr (List.mem_cons_of_mem _ h)
      · rw [if_neg h2] at hl
        rcases List.mem_cons.mp hl with rfl | hm
        · exact Or.inr (List.mem_cons_self _ _)
        · rcases ih false false l hm with h | h
          · exact Or.inl h
          · exact Or.inr (List.mem_cons_of_mem _ h)

theorem collapseAux_noAdj :
    ∀ (lines : List Str) (pr pe : Bool),
      noTwoAdjacentEmpty (collapseAux lines pr pe) = true ∧
        ((pr || pe) = true → ∀ h ∈ (collapseAux lines pr pe).head?, h ≠ ([] : Str)) := by
  intro lines
  induction lines with
  | nil =>
    intro pr pe
    exact ⟨rfl, fun _ h hm => by simp [collapseAux] at hm⟩
  | cons x rest ih =>
    intro pr pe
    rw [show collapseAux (x :: rest) pr pe =
        (if isRemovedMarker x then (if pr then [] else [x]) ++ collapseAux rest true false
         else if strip x = [] then
           (if pr || pe then [] else [([] : Str)]) ++ collapseAux rest false true
         else x :: collapseAux rest false false) from rfl]
    by_cases h1 : isRemovedMarker x = true
    · rw [if_pos h1]
      have hx : x ≠ [] := isRemovedMarker_ne_nil x h1
      by_cases hpr : pr
      · rw [if_pos hpr, List.nil_append]
        refine ⟨(ih true false).1, fun _ => (ih true false).2 rfl⟩
      · rw [if_neg hpr, List.singleton_append]
        refine ⟨?_, fun _ h hm => ?_⟩
        · rw [noTwoAdjacentEmpty_cons_of_ne x _ hx]
          exact (ih true false).1
        · have hxh : x = h := by simpa using hm
          rw [← hxh]
          exact hx
    · rw [if_neg h1]
      by_cases h2 : strip x = []
      · rw [if_pos h2]
        by_cases hb : (pr || pe) = true
        · rw [if_pos hb, List.nil_append]
          refine ⟨(ih false true).1, fun _ => (ih false true).2 rfl⟩
        · rw [if_neg hb, List.singleton_append]
          refine ⟨?_, fun hcontra => absurd hcontra hb⟩
          cases ho : collapseAux rest false true with
          | nil => rfl
          | cons hh tt =>
            have hne : hh ≠ [] := by
              have := (ih false true).2 rfl
              rw [ho] at this
              exact this hh rfl
            have hhe : hh.isEmpty = false := by
              cases hh with
              | nil => exact absurd rfl hne
              | cons y ys => rfl
            have htail : noTwoAdjacentEmpty (hh :: tt) = true := by
              have := (ih false true).1
              rw [ho] at this
              exact this
            simp [noTwoAdjacentEmpty, hhe, htail]
      · rw [if_neg h2]
        have hx : x ≠ [] := strip_ne_nil_ne_nil x h2
        refine ⟨?_, fun _ h hm => ?_⟩
        · rw [noTwoAdjacentEmpty_cons_of_ne x _ hx]
          exact (ih false false).1
        · have hxh : x = h := by simpa using hm
          rw [← hxh]
          exact hx

theorem joinNl_no_triple :
    ∀ (n : Nat) (out : List Str), out.length ≤ n →
      (∀ l ∈ out, ('\n' : Char) ∉ l) → noTwoAdjacentEmpty out = true →
      hasTripleNewline (joinNl out) = false := by
  intro n
  induction n with
  | zero =>
    intro out hlen _ _
    rw [List.length_eq_zero.mp (Nat.le_zero.mp hlen)]
    rfl
  | succ n ih =>
    intro out hlen hnl hadj
    match out with
    | [] => rfl
    | [a] =>
      rw [show joinNl [a] = a from rfl]
      exact hasTriple_of_no_nl a (fun c hc heq => hnl a (List.mem_singleton.mpr rfl)
        (heq ▸ hc))
    | a :: b :: rest =>
      have hna : ∀ c ∈ a, c ≠ '\n' := fun c hc heq =>
        hnl a (List.mem_cons_self _ _) (heq ▸ hc)
      rw [show joinNl (a :: b :: rest) = a ++ '\n' :: joinNl (b :: rest) from rfl,
        hasTriple_append_left a _ hna]
      have hnl' : ∀ l ∈ b :: rest, ('\n' : Char) ∉ l :=
        fun l hl => hnl l (List.mem_cons_of_mem _ hl)
      have hadj' : noTwoAdjacentEmpty (b :: rest) = true := by
        by_cases hae : a.isEmpty && b.isEmpty
        · exfalso
          rw [show noTwoAdjacentEmpty (a :: b :: rest) =
              (!(a.isEmpty && b.isEmpty) && noTwoAdjacentEmpty (b :: rest)) from rfl,
            hae] at hadj
          simp at hadj
        · rw [show noTwoAdjacentEmpty (a :: b :: rest) =
              (!(a.isEmpty && b.isEmpty) && noTwoAdjacentEmpty (b :: rest)) from rfl] at hadj
          exact (Bool.and_eq_true_iff.mp hadj).2
      have hlen2 : (b :: rest).length ≤ n := by
        have := hlen
        simp only [List.length_cons] at this ⊢
        omega
      match b, hnl', hadj', hlen2 with
      | [], hnl', hadj', hlen2 =>
        match rest, hnl', hadj', hlen2 with
        | [], _, _, _ => decide
        | d :: rest', hnl', hadj', hlen2 =>
          have hd : d ≠ [] := by
            intro h0
            rw [show noTwoAdjacentEmpty ([] :: d :: rest') =
                (!(List.isEmpty ([] : Str) && d.isEmpty) &&
                  noTwoAdjacentEmpty (d :: rest')) from rfl, h0] at hadj'
            simp at hadj'
          match d, hd, hnl', hadj', hlen2 with
          | e :: d', hd, hnl', hadj', hlen2 =>
            have he : e ≠ '\n' := fun heq =>
              hnl' (e :: d') (List.mem_cons_of_mem _ (List.mem_cons_self _ _))
                (heq ▸ List.mem_cons_self _ _)
            rw [show joinNl ([] :: (e :: d') :: rest') =
                '\n' :: joinNl ((e :: d') :: rest') from rfl]
            obtain ⟨t, hjt⟩ : ∃ t, joinNl ((e :: d') :: rest') = e :: t := by
              cases rest' with
              | nil => exact ⟨d', rfl⟩
              | cons z r => exact ⟨d' ++ '\n' :: joinNl (z :: r), rfl⟩
            rw [hjt, hasTriple_two_nl_cons e t he, ← hjt]
            refine ih ((e :: d') :: rest') ?_ ?_ ?_
            · simp only [List.length_cons] at hlen2 ⊢
              omega
            · exact fun l hl => hnl' l (List.mem_cons_of_mem _ hl)
            · rw [show noTwoAdjacentEmpty ([] :: (e :: d') :: rest') =
                  (!(List.isEmpty ([] : Str) && (e :: d').isEmpty) &&
                    noTwoAdjacentEmpty ((e :: d') :: rest')) from rfl] at hadj'
              exact (Bool.and_eq_true_iff.mp hadj').2
      | e :: b', hnl', hadj', hlen2 =>
        have he : e ≠ '\n' := fun heq =>
          hnl' (e :: b') (List.mem_cons_self _ _) (heq ▸ List.mem_cons_self _ _)
        obtain ⟨t, hjt⟩ : ∃ t, joinNl ((e :: b') :: rest) = e :: t := by
          cases rest with
          | nil => exact ⟨b', rfl⟩
          | cons z r => exact ⟨b' ++ '\n' :: joinNl (z :: r), rfl⟩
        rw [hjt, hasTriple_nl_cons (e :: t) (fun x hx => by
          obtain rfl : e = x := by simpa using hx
          exact he), ← hjt]
        exact ih ((e :: b') :: rest) hlen2 hnl' hadj'

theorem collapse_no_triple (text : Str) :
    hasTripleNewline (collapse_removed_lines text) = false := by
  rw [collapse_removed_lines]
  refine joinNl_no_triple (collapseAux (splitNl text) false false).length _ le_rfl ?_ ?_
  · intro l hl
    rcases collapseAux_mem (splitNl text) false false l hl with rfl | hmem
    · simp
    · exact nl_not_mem_splitNl text l hmem
  · exact (collapseAux_noAdj (splitNl text) false false).1

theorem takeWhile_nl_bound (rest : Str)
    (h : hasTripleNewline ('\n' :: rest) = false) :
    (rest.takeWhile (fun x => x == '\n')).length ≤ 1 := by
  by_contra hgt
  push_neg at hgt
  have hone : ∀ (l : Str), 1 ≤ (l.takeWhile (fun x => x == '\n')).length →
      ∃ t, l = '\n' :: t ∧
        (l.takeWhile (fun x => x == '\n')).length =
          (t.takeWhile (fun x => x == '\n')).length + 1 := by
    intro l hl
    cases l with
    | nil => simp [List.takeWhile_nil] at hl
    | cons a r =>
      by_cases ha : (a == '\n') = true
      · have ha' : a = '\n' := by simpa using ha
        subst ha'
        exact ⟨r, rfl, by
          rw [show List.takeWhile (fun x => x == '\n') ('\n' :: r) =
            '\n' :: List.takeWhile (fun x => x == '\n') r from
            List.takeWhile_cons_of_pos ha, List.length_cons]⟩
      · rw [List.takeWhile_cons_of_neg (by simpa using ha)] at hl
        simp at hl
  obtain ⟨t, rfl, hlen1⟩ := hone rest (by omega)
  obtain ⟨t', rfl, _⟩ := hone t (by omega)
  rw [show hasTripleNewline ('\n' :: '\n' :: '\n' :: t') =
      (startsWithTriple ('\n' :: '\n' :: '\n' :: t') ||
        hasTripleNewline ('\n' :: '\n' :: t')) from rfl,
    show startsWithTriple ('\n' :: '\n' :: '\n' :: t') = true from by
      simp [startsWithTriple], Bool.true_or] at h
  exact absurd h (by simp)

theorem normNlAux_id :
    ∀ (fuel : Nat) (s : Str), s.length ≤ fuel → hasTripleNewline s = false →
      normNlAux fuel s = s := by
  intro fuel
  induction fuel with
  | zero =>
    intro s hlen _
    rw [List.length_eq_zero.mp (Nat.le_zero.mp hlen)]
    rfl
  | succ fuel ih =>
    intro s hlen htr
    cases s with
    | nil => rfl
    | cons c rest =>
      by_cases hc : (c == '\n') = true
      · have hc' : c = '\n' := by simpa using hc
        subst hc'
        have htw : (rest.takeWhile (fun x => x == '\n')).length ≤ 1 :=
          takeWhile_nl_bound rest htr
        rw [show normNlAux (fuel + 1) ('\n' :: rest) =
            (if 4 ≤ 1 + (rest.takeWhile (fun x => x == '\n')).length then
              List.replicate 3 '\n'
            else List.replicate (1 + (rest.takeWhile (fun x => x == '\n')).length) '\n') ++
              normNlAux fuel (rest.dropWhile (fun x => x == '\n')) from by
          simp [normNlAux]]
        rw [if_neg (by omega)]
        have hrep : List.replicate (1 + (rest.takeWhile (fun x => x == '\n')).length) '\n' =
            '\n' :: rest.takeWhile (fun x => x == '\n') := by
          rw [Nat.add_comm, List.replicate_succ]
          congr 1
          exact ((List.eq_replicate_of_mem (fun b hb => by
            simpa using List.mem_takeWhile_imp hb))).symm
        have hdrop : normNlAux fuel (rest.dropWhile (fun x => x == '\n')) =
            rest.dropWhile (fun x => x == '\n') := by
          refine ih _ ?_ ?_
          · have h1 : (rest.dropWhile (fun x => x == '\n')).length ≤ rest.length :=
              (List.dropWhile_sublist _).length_le
            simp only [List.length_cons] at hlen
            omega
          · refine hasTriple_false_of_infix ?_ htr
            exact ((List.dropWhile_suffix _).trans
              (List.suffix_cons '\n' rest)).isInfix
        rw [hrep, hdrop, List.cons_append, List.takeWhile_append_dropWhile]
      · have hc' : c ≠ '\n' := by simpa using hc
        rw [show normNlAux (fuel + 1) (c :: rest) = c :: normNlAux fuel rest from by
          simp [normNlAux, hc]]
        have hrest : hasTripleNewline rest = false := by
          rw [hasTriple_cons] at htr
          exact (Bool.or_eq_false_iff.mp htr).2
        rw [ih rest (by simp only [List.length_cons] at hlen; omega) hrest]

/-- C9: for every input, the output of `clean_text` never contains three or more
consecutive newline characters: the collapse pass reduces every run of blank or
whitespace-only lines to a single empty line, so the run-of-4+-newlines
normalisation and the final trim never see (or produce) a triple newline. -/
theorem c9_no_triple_newline (x : Str) :
    hasTripleNewline (clean_text x) = false := by
  have pipeline : ∀ s : Str,
      hasTripleNewline (strip (normalizeNewlines (collapse_removed_lines s))) = false := by
    intro s
    have h1 : hasTripleNewline (collapse_removed_lines s) = false := collapse_no_triple s
    have h2 : normalizeNewlines (collapse_removed_lines s) = collapse_removed_lines s :=
      normNlAux_id _ _ le_rfl h1
    rw [h2]
    exact hasTriple_false_of_infix (strip_infix_self _) h1
  simp only [clean_text]
  exact pipeline _

/-! ### Claim C8: idempotence on already-cleaned text -/

theorem strip_clean_text (x : Str) : strip (clean_text x) = clean_text x := by
  simp only [clean_text]
  exact strip_strip _

theorem map_id_of_forall {f : Str → Str} (l : List Str) (h : ∀ a ∈ l, f a = a) :
    l.map f = l :=
  (List.map_congr_left h).trans (List.map_id l)

theorem fenceStrip_no_fence (s : Str) (h : ¬("```".toList <+: s)) : fenceStrip s = s := by
  have h1 : ¬("```markdown\n".toList <+: s) := fun hc =>
    h ((by decide : "```".toList <+: "```markdown\n".toList).trans hc)
  have h2 : ¬("```markdown\r\n".toList <+: s) := fun hc =>
    h ((by decide : "```".toList <+: "```markdown\r\n".toList).trans hc)
  have h3 : ¬("```\n".toList <+: s) := fun hc =>
    h ((by decide : "```".toList <+: "```\n".toList).trans hc)
  have h4 : ¬("```\r\n".toList <+: s) := fun hc =>
    h ((by decide : "```".toList <+: "```\r\n".toList).trans hc)
  have b1 : ("```markdown\n".toList.isPrefixOf s) = false :=
    Bool.eq_false_iff.mpr (fun hc => h1 (List.isPrefixOf_iff_prefix.mp hc))
  have b2 : ("```markdown\r\n".toList.isPrefixOf s) = false :=
    Bool.eq_false_iff.mpr (fun hc => h2 (List.isPrefixOf_iff_prefix.mp hc))
  have b3 : ("```\n".toList.isPrefixOf s) = false :=
    Bool.eq_false_iff.mpr (fun hc => h3 (List.isPrefixOf_iff_prefix.mp hc))
  have b4 : ("```\r\n".toList.isPrefixOf s) = false :=
    Bool.eq_false_iff.mpr (fun hc => h4 (List.isPrefixOf_iff_prefix.mp hc))
  unfold fenceStrip
  rw [if_neg (fun hc => by
      rcases Bool.or_eq_true_iff.mp hc with hx | hx
      · rw [b1] at hx
        exact absurd hx (by decide)
      · rw [b2] at hx
        exact absurd hx (by decide)),
    if_neg (fun hc => by
      rcases Bool.or_eq_true_iff.mp hc with hx | hx
      · rw [b3] at hx
        exact absurd hx (by decide)
      · rw [b4] at hx
        exact absurd hx (by decide))]

/-- C8 counterexample: on `x = "Page 1 of 2\n  --- Page Break ---\nA"` the output
of `clean_text` re-triggers no classifier rule and has nothing further to
collapse or normalise — the stated hypotheses of the claim all hold — yet
`clean_text` is not idempotent on it: the final trim exposes a page-break marker
line (`"--- Page Break ---"`) that only the second pass's page-break stripper
removes. -/
theorem c8_idempotence_counterexample :
    (∀ l ∈ splitNl (clean_text "Page 1 of 2\n  --- Page Break ---\nA".toList),
        clean_line l (find_repeated_lines
          (splitNl (clean_text "Page 1 of 2\n  --- Page Break ---\nA".toList))) = l) ∧
      collapse_removed_lines (clean_text "Page 1 of 2\n  --- Page Break ---\nA".toList) =
        clean_text "Page 1 of 2\n  --- Page Break ---\nA".toList ∧
      normalizeNewlines (clean_text "Page 1 of 2\n  --- Page Break ---\nA".toList) =
        clean_text "Page 1 of 2\n  --- Page Break ---\nA".toList ∧
      clean_text (clean_text "Page 1 of 2\n  --- Page Break ---\nA".toList) ≠
        clean_text "Page 1 of 2\n  --- Page Break ---\nA".toList := by
  decide

/-- C8 amended: `clean_text` is idempotent on any output `y = clean_text x` that
additionally does not begin with a code fence and contains no page-break marker
line: if no line of `y` is changed by the classifier, page-break stripping,
collapsing and newline normalisation leave `y` unchanged, and `y` does not start
with three backticks, then `clean_text y = y`. -/
theorem c8_amended_idempotence (x : Str)
    (hfence : ¬("```".toList <+: clean_text x))
    (hlines : ∀ l ∈ splitNl (clean_text x),
      clean_line l (find_repeated_lines (splitNl (clean_text x))) = l)
    (hpb : remove_page_breaks (clean_text x) = clean_text x)
    (hcol : collapse_removed_lines (clean_text x) = clean_text x)
    (hnorm : normalizeNewlines (clean_text x) = clean_text x) :
    clean_text (clean_text x) = clean_text x := by
  have hsy : strip (clean_text x) = clean_text x := strip_clean_text x
  have hfs : fenceStrip (strip (clean_text x)) = clean_text x := by
    rw [hsy]
    exact fenceStrip_no_fence _ hfence
  conv_lhs => rw [clean_text]
  rw [hfs, map_id_of_forall _ hlines, joinNl_splitNl, hpb, hcol, hnorm, hsy]

/-- Witness for `c8_amended_idempotence` at the concrete input `"Hello world"`. -/
theorem c8_amended_witness :
    clean_text (clean_text "Hello world".toList) = clean_text "Hello world".toList :=
  c8_amended_idempotence "Hello world".toList (by decide) (by decide) (by decide)
    (by decide) (by decide)

/-! ### Claim C1: totality of the cleaning pipelines -/

theorem ratioGtChk_eq (a b n d : Nat) (hb : b ≠ 0) :
    ratioGtChk a b n d = some (ratioGt a b n d) := by
  rw [ratioGtChk, if_neg hb]

theorem ratioLtChk_eq (a b n d : Nat) (hb : b ≠ 0) :
    ratioLtChk a b n d = some (ratioLt a b n d) := by
  rw [ratioLtChk, if_neg hb]

theorem get_digit_hex_ratio_gtChk_eq (s : Str) (n d : Nat) :
    get_digit_hex_ratio_gtChk s n d = some (get_digit_hex_ratio_gt s n d) := by
  by_cases hs : s = []
  · rw [get_digit_hex_ratio_gtChk, if_pos hs, get_digit_hex_ratio_gt, if_pos hs]
  · rw [get_digit_hex_ratio_gtChk, if_neg hs, get_digit_hex_ratio_gt, if_neg hs]
    exact ratioGtChk_eq _ _ _ _ (fun h0 => hs (List.length_eq_zero.mp h0))

theorem is_likely_headingChk_eq (line : Str) :
    is_likely_headingChk line = some (is_likely_heading line) := by
  simp only [is_likely_headingChk, is_likely_heading]
  by_cases h1 : (decide (80 < (strip line).length) || decide ((strip line).length < 3)) = true
  · rw [if_pos h1, if_pos h1]
  · rw [if_neg h1, if_neg h1]
    by_cases h2 : "#".toList.isPrefixOf (strip line) = true
    · rw [if_pos h2, if_pos h2]
    · rw [if_neg h2, if_neg h2]
      by_cases h3 : (strip line).filter (fun c => c.isAlpha) = []
      · rw [if_pos h3, if_pos h3]
      · rw [if_neg h3, if_neg h3]
        exact ratioGtChk_eq _ _ _ _ (fun h0 => h3 (List.length_eq_zero.mp h0))

theorem rule6CondChk_eq (t : Str) : rule6CondChk t = some (rule6Cond t) := by
  by_cases h : 300 < t.length
  · rw [rule6CondChk, if_pos h, rule6Cond, get_digit_hex_ratio_gtChk_eq,
      decide_eq_true h, Bool.true_and]
  · rw [rule6CondChk, if_neg h, rule6Cond]
    have hd : decide (300 < t.length) = false := by simpa using h
    rw [hd, Bool.false_and]

theorem rule10CondChk_eq (line : Str) : rule10CondChk line = some (rule10Cond line) := by
  by_cases h : 500 < line.length
  · rw [rule10CondChk, if_pos h, rule10Cond, decide_eq_true h, Bool.true_and]
    exact ratioLtChk_eq _ _ _ _ (by omega)
  · rw [rule10CondChk, if_neg h, rule10Cond]
    have hd : decide (500 < line.length) = false := by simpa using h
    rw [hd, Bool.false_and]

theorem bump_ne_nil (acc : List (Str × Nat)) (k : Str) : bump acc k ≠ [] := by
  cases acc with
  | nil => simp [bump]
  | cons p rest =>
    obtain ⟨k', n⟩ := p
    by_cases h : k' = k <;> simp [bump, h]

theorem foldl_bump_ne_nil (l : List Str) :
    ∀ acc : List (Str × Nat), acc ≠ [] →
      l.foldl (fun acc w => bump acc (w.map Char.toLower)) acc ≠ [] := by
  induction l with
  | nil => intro acc h; exact h
  | cons w rest ih =>
    intro acc _
    rw [List.foldl_cons]
    exact ih _ (bump_ne_nil acc _)

theorem wordCounts_ne_nil (ws : List Str) (h : ws ≠ []) : wordCounts ws ≠ [] := by
  cases ws with
  | nil => exact absurd rfl h
  | cons w rest =>
    rw [wordCounts, List.foldl_cons]
    exact foldl_bump_ne_nil rest _ (bump_ne_nil [] _)

theorem rule12CondChk_eq (line : Str) : rule12CondChk line = some (rule12Cond line) := by
  by_cases h5 : 500 < line.length
  · by_cases h50 : 50 < (pyWords line).length
    · have hws : pyWords line ≠ [] := by
        intro h0
        rw [h0] at h50
        simp at h50
      have hmap : (wordCounts (pyWords line)).map (fun p => p.2) ≠ [] := by
        intro h0
        exact wordCounts_ne_nil _ hws (List.map_eq_nil_iff.mp h0)
      have hmax : maxNatChk ((wordCounts (pyWords line)).map (fun p => p.2)) =
          some (maxNat ((wordCounts (pyWords line)).map (fun p => p.2))) := by
        cases hm : (wordCounts (pyWords line)).map (fun p => p.2) with
        | nil => exact absurd hm hmap
        | cons a tl => rfl
      simp only [rule12CondChk, rule12Cond]
      rw [if_pos h5, if_pos h50, hmax, Option.some_bind,
        ratioGtChk_eq _ _ _ _ (by omega), Option.some_bind, decide_eq_true h5,
        decide_eq_true h50, Bool.true_and, Bool.true_and]
      by_cases hb1 : ratioGt (maxNat ((wordCounts (pyWords line)).map (fun p => p.2)))
          (pyWords line).length 2 5 = true
      · rw [if_pos hb1, hb1, Bool.true_or]
      · have hb1' : ratioGt (maxNat ((wordCounts (pyWords line)).map (fun p => p.2)))
            (pyWords line).length 2 5 = false := by simpa using hb1
        rw [if_neg hb1, hb1', Bool.false_or]
        exact ratioLtChk_eq _ _ _ _ (by omega)
    · simp only [rule12CondChk, rule12Cond]
      rw [if_pos h5, if_neg h50]
      have hd : decide (50 < (pyWords line).length) = false := by simpa using h50
      rw [hd, Bool.false_and, Bool.and_false]
  · simp only [rule12CondChk, rule12Cond]
    rw [if_neg h5]
    have hd : decide (500 < line.length) = false := by simpa using h5
    rw [hd, Bool.false_and]

theorem clean_lineChk_eq (line : Str) (repeated : List Str) :
    clean_lineChk line repeated = some (clean_line line repeated) := by
  simp only [clean_lineChk, clean_line]
  by_cases c0 : strip line = []
  · rw [if_pos c0, if_pos c0]
  · rw [if_neg c0, if_neg c0]
    by_cases c1 : 2000 < line.length
    · rw [if_pos c1, if_pos c1]
    · rw [if_neg c1, if_neg c1]
      have hdrop : (if strip line ∈ repeated then
          (is_likely_headingChk (strip line)).map (fun h => !h) else some false) =
          some (decide (strip line ∈ repeated) && !is_likely_heading (strip line)) := by
        by_cases hm : strip line ∈ repeated
        · rw [if_pos hm, is_likely_headingChk_eq, Option.map_some', decide_eq_true hm,
            Bool.true_and]
        · rw [if_neg hm]
          have hd : decide (strip line ∈ repeated) = false := by simpa using hm
          rw [hd, Bool.false_and]
      rw [hdrop, Option.some_bind]
      by_cases c2 : (decide (strip line ∈ repeated) && !is_likely_heading (strip line)) = true
      · rw [if_pos c2, if_pos c2]
      · rw [if_neg c2, if_neg c2]
        by_cases c3 : is_page_number_line (strip line) = true
        · rw [if_pos c3, if_pos c3]
        · rw [if_neg c3, if_neg c3]
          by_cases c4 : is_contact_footer (strip line) = true
          · rw [if_pos c4, if_pos c4]
          · rw [if_neg c4, if_neg c4, rule6CondChk_eq, Option.some_bind]
            by_cases c6 : rule6Cond (strip line) = true
            · rw [if_pos c6, if_pos c6]
            · rw [if_neg c6, if_neg c6]
              by_cases c7 : contains_pixel_sequence (strip line) = true
              · rw [if_pos c7, if_pos c7]
              · rw [if_neg c7, if_neg c7]
                by_cases c8 : contains_hex_sequence (strip line) = true
                · rw [if_pos c8, if_pos c8]
                · rw [if_neg c8, if_neg c8]
                  by_cases c9 : is_calibration_data_line (strip line) = true
                  · rw [if_pos c9, if_pos c9]
                  · rw [if_neg c9, if_neg c9, rule10CondChk_eq, Option.some_bind]
                    by_cases c10 : rule10Cond line = true
                    · rw [if_pos c10, if_pos c10]
                    · rw [if_neg c10, if_neg c10]
                      by_cases c11 : rule11Cond line = true
                      · rw [if_pos c11, if_pos c11]
                      · rw [if_neg c11, if_neg c11, rule12CondChk_eq, Option.some_bind]
                        by_cases c12 : rule12Cond line = true
                        · rw [if_pos c12, if_pos c12]
                        · rw [if_neg c12, if_neg c12]

theorem mapOpt_eq {f : Str → Option Str} {g : Str → Str} :
    ∀ l : List Str, (∀ a ∈ l, f a = some (g a)) → mapOpt f l = some (l.map g) := by
  intro l
  induction l with
  | nil => intro _; rfl
  | cons a rest ih =>
    intro h
    have ha := h a (List.mem_cons_self _ _)
    have hr := ih (fun x hx => h x (List.mem_cons_of_mem _ hx))
    simp only [mapOpt, ha, hr, List.map_cons]

theorem clean_textChk_eq (t : Str) : clean_textChk t = some (clean_text t) := by
  simp only [clean_textChk, clean_text]
  rw [mapOpt_eq _ (fun l _ => clean_lineChk_eq l _), Option.map_some']

theorem is_numeric_garbageChk_eq (line : Str) :
    is_numeric_garbageChk line = some (is_numeric_garbage line) := by
  simp only [is_numeric_garbageChk, is_numeric_garbage]
  by_cases h0 : strip line = []
  · rw [if_pos h0, if_pos h0]
  · rw [if_neg h0, if_neg h0]
    by_cases hD : isAllDigits (strip line) = true
    · rw [if_pos hD, if_pos hD]
    · rw [if_neg hD, if_neg hD]
      have hb2 : (if 5 ≤ (pyWords (strip line)).length then
          ratioGtChk ((pyWords (strip line)).countP isAllDigits)
            (pyWords (strip line)).length 4 5 else some false) =
          some (decide (5 ≤ (pyWords (strip line)).length) &&
            ratioGt ((pyWords (strip line)).countP isAllDigits)
              (pyWords (strip line)).length 4 5) := by
        by_cases h5 : 5 ≤ (pyWords (strip line)).length
        · rw [if_pos h5, ratioGtChk_eq _ _ _ _ (by omega), decide_eq_true h5, Bool.true_and]
        · rw [if_neg h5]
          have hd : decide (5 ≤ (pyWords (strip line)).length) = false := by simpa using h5
          rw [hd, Bool.false_and]
      rw [hb2, Option.some_bind]
      by_cases hB2 : (decide (5 ≤ (pyWords (strip line)).length) &&
          ratioGt ((pyWords (strip line)).countP isAllDigits)
            (pyWords (strip line)).length 4 5) = true
      · rw [if_pos hB2, if_pos hB2]
      · rw [if_neg hB2, if_neg hB2]
        have hb3 : (if 50 < (strip line).length then
            ratioGtChk ((strip line).countP Char.isDigit) (strip line).length 7 10
          else some false) =
            some (decide (50 < (strip line).length) &&
              ratioGt ((strip line).countP Char.isDigit) (strip line).length 7 10) := by
          by_cases h50 : 50 < (strip line).length
          · rw [if_pos h50, ratioGtChk_eq _ _ _ _ (by omega), decide_eq_true h50,
              Bool.true_and]
          · rw [if_neg h50]
            have hd : decide (50 < (strip line).length) = false := by simpa using h50
            rw [hd, Bool.false_and]
        rw [hb3, Option.some_bind]
        by_cases hB3 : (decide (50 < (strip line).length) &&
            ratioGt ((strip line).countP Char.isDigit) (strip line).length 7 10) = true
        · rw [if_pos hB3, hB3]
        · have hB3' : (decide (50 < (strip line).length) &&
              ratioGt ((strip line).countP Char.isDigit) (strip line).length 7 10) =
              false := by simpa using hB3
          rw [if_neg hB3, hB3']

theorem secondPassChk_eq (seen : List (Str × Nat)) :
    ∀ (lines : List Str) (pe : Bool) (run : Nat),
      secondPassChk seen lines pe run = some (secondPass seen lines pe run) := by
  intro lines
  induction lines with
  | nil => intro pe run; rfl
  | cons line rest ih =>
    intro pe run
    simp only [secondPassChk, secondPass]
    by_cases h1 : strip line ≠ [] ∧ 3 ≤ countOf seen (strip line)
    · rw [if_pos h1, if_pos h1]
      exact ih pe run
    · rw [if_neg h1, if_neg h1]
      by_cases h2 : et_is_page_number (strip line) = true
      · rw [if_pos h2, if_pos h2]
        exact ih pe run
      · rw [if_neg h2, if_neg h2, is_numeric_garbageChk_eq, Option.some_bind]
        by_cases h3 : is_numeric_garbage (strip line) = true
        · rw [if_pos h3, if_pos h3, ih pe (run + 1), Option.map_some']
        · rw [if_neg h3, if_neg h3]
          by_cases h4 : strip line = []
          · rw [if_pos h4, if_pos h4, ih true 0, Option.map_some']
          · rw [if_neg h4, if_neg h4, ih false 0, Option.map_some']

theorem clean_extracted_textChk_eq (t : Str) :
    clean_extracted_textChk t = some (clean_extracted_text t) := by
  simp only [clean_extracted_textChk, clean_extracted_text]
  rw [secondPassChk_eq, Option.map_some']

/-- C1: `clean_text` and `clean_extracted_text` are total: the checked pipelines,
in which every internal division site (digit/hex ratio, space ratio,
word-frequency shares, uppercase-letter ratio, numeric word share, digit
density) fails on a zero divisor and Python's `max` fails on an empty
collection, return `some` of the total pipelines on every input — every division
is guarded, and no division by zero or empty `max` ever occurs. -/
theorem c1_cleaning_total (t : Str) :
    clean_textChk t = some (clean_text t) ∧
      clean_extracted_textChk t = some (clean_extracted_text t) :=
  ⟨clean_textChk_eq t, clean_extracted_textChk_eq t⟩

end TextCleaner
